import Mathlib

/-!
Verification of the KoiFish environment-simulation core.

The TypeScript sources are shallowly embedded: numbers become `ℝ` (or `ℚ`/`ℤ`
for the integer-valued grid arithmetic), mutation becomes explicit state
passing, `throw` becomes `Option`, and `Math.random()` draws become explicit
oracle parameters constrained to the interval `[0, 1)` that `Math.random`
guarantees.  Each section names the source file and function it embeds.
-/

/- ### Geometry primitives (src/geometry/Vector.ts, src/geometry/Point.ts) -/

noncomputable section

/-- A 2-D vector, as in `Vector.ts` (`dx`, `dy`). -/
structure Vec where
  dx : ℝ
  dy : ℝ

/-- A 2-D point, as in `Point.ts` (`x`, `y`). -/
structure Pt where
  x : ℝ
  y : ℝ

/-- `Vector.getMagnitude`: `Math.sqrt(dx*dx + dy*dy)`. -/
noncomputable def Vec.getMagnitude (v : Vec) : ℝ :=
  Real.sqrt (v.dx * v.dx + v.dy * v.dy)

/-- `Vector.normalize(mutate)`.  `none` models the thrown
`Cannot normalize a zero vector` error.  The returned pair is
(the vector the call returns, the state of `this` after the call): when
`mutate` is false the source returns a fresh vector and leaves `this` alone. -/
noncomputable def Vec.normalize (v : Vec) (mutate : Bool) : Option (Vec × Vec) :=
  let magnitude := Real.sqrt (v.dx * v.dx + v.dy * v.dy)
  if magnitude = 0 then
    none
  else
    let finalDx := v.dx / magnitude
    let finalDy := v.dy / magnitude
    if mutate then some (⟨finalDx, finalDy⟩, ⟨finalDx, finalDy⟩)
    else some (⟨finalDx, finalDy⟩, v)

/-- Non-mutating `Vector.normalize()`, returning just the result.  Used by the
call sites that discard the mutation aspect. -/
noncomputable def Vec.normalized (v : Vec) : Option Vec :=
  (v.normalize false).map Prod.fst

/-- `Vector.scale(scaleFactor)` (non-mutating form). -/
def Vec.scale (v : Vec) (scaleFactor : ℝ) : Vec :=
  ⟨v.dx * scaleFactor, v.dy * scaleFactor⟩

/-- `Vector.rotateVector(angleDegrees)`: clockwise-positive rotation, done by
negating the angle before applying the standard rotation matrix. -/
noncomputable def Vec.rotateVector (v : Vec) (angleDegrees : ℝ) : Vec :=
  let angleRadians := (-angleDegrees * Real.pi) / 180
  let cosTheta := Real.cos angleRadians
  let sinTheta := Real.sin angleRadians
  ⟨v.dx * cosTheta - v.dy * sinTheta, v.dx * sinTheta + v.dy * cosTheta⟩

/-- `Math.atan2(y, x)`, embedded through the complex argument
(`Complex.arg ⟨x, y⟩` is the angle of `(x, y)` from the positive x-axis,
in `(-π, π]`, with `atan2(0, 0) = 0`, as in JavaScript). -/
noncomputable def atan2 (y x : ℝ) : ℝ :=
  Complex.arg ⟨x, y⟩

/-- `Vector.signedAngleBetween(a, b)`: angle difference in degrees,
normalized into `[-180, 180]` by the source's two sequential `if`s. -/
noncomputable def Vec.signedAngleBetween (a b : Vec) : ℝ :=
  let angleA := atan2 a.dy a.dx
  let angleB := atan2 b.dy b.dx
  let angleDegrees := (angleA - angleB) * (180 / Real.pi)
  let angleDegrees1 := if angleDegrees > 180 then angleDegrees - 360 else angleDegrees
  if angleDegrees1 < -180 then angleDegrees1 + 360 else angleDegrees1

/-- `Math.sign` (real arguments): -1, 0 or 1. -/
noncomputable def jsSign (x : ℝ) : ℝ :=
  if x > 0 then 1 else if x < 0 then -1 else 0

/-- `Point.applyVector(vector)` (non-mutating form; the `mutate: true` calls
are modelled by using the returned point as the new state). -/
def Pt.applyVector (p : Pt) (v : Vec) : Pt :=
  ⟨p.x + v.dx, p.y + v.dy⟩

/-- `Point.getVectorTo(target)`. -/
def Pt.getVectorTo (p target : Pt) : Vec :=
  ⟨target.x - p.x, target.y - p.y⟩

/-- `Point.getDistanceTo(target)`: magnitude of `getVectorTo`. -/
noncomputable def Pt.getDistanceTo (p target : Pt) : ℝ :=
  (p.getVectorTo target).getMagnitude

/-- Squared distance; the comparison-friendly companion of `getDistanceTo`. -/
def Pt.distSq (p target : Pt) : ℝ :=
  (target.x - p.x) * (target.x - p.x) + (target.y - p.y) * (target.y - p.y)

/-- `scaleToRange(min, max, scale)` from `numberUtil.ts`. -/
def scaleToRange (min max scale : ℝ) : ℝ :=
  min + (max - min) * scale

/-- `getElapsedSeconds(pastTimestamp)` from `timeUtil.ts`, with the current
`Date.now()` value passed explicitly (timestamps in milliseconds). -/
def getElapsedSeconds (pastTimestamp now : ℝ) : ℝ :=
  (now - pastTimestamp) / 1000

theorem Pt.distSq_nonneg (p q : Pt) : 0 ≤ p.distSq q := by
  unfold Pt.distSq
  nlinarith [sq_nonneg (q.x - p.x), sq_nonneg (q.y - p.y)]

theorem Pt.getDistanceTo_eq_sqrt (p q : Pt) :
    p.getDistanceTo q = Real.sqrt (p.distSq q) := by
  unfold Pt.getDistanceTo Vec.getMagnitude Pt.getVectorTo Pt.distSq
  norm_num

theorem Pt.getDistanceTo_lt_iff (p q : Pt) (c : ℝ) (hc : 0 < c) :
    p.getDistanceTo q < c ↔ p.distSq q < c * c := by
  rw [Pt.getDistanceTo_eq_sqrt, show c * c = c ^ 2 by ring]
  exact Real.sqrt_lt' hc

/- ### Claim C7: Vector.normalize (src/geometry/Vector.ts, lines 807-826) -/

theorem Vec.sqrt_mag_eq_zero_iff (v : Vec) :
    Real.sqrt (v.dx * v.dx + v.dy * v.dy) = 0 ↔ v.dx = 0 ∧ v.dy = 0 := by
  rw [Real.sqrt_eq_zero (by nlinarith [sq_nonneg v.dx, sq_nonneg v.dy])]
  constructor
  · intro h
    constructor <;> nlinarith [sq_nonneg v.dx, sq_nonneg v.dy]
  · rintro ⟨h1, h2⟩
    rw [h1, h2]
    ring

/-- Claim C7: `Vector.normalize` raises an error if and only if the vector is
the zero vector (`dx = dy = 0`); for every non-zero vector the returned vector
has unit magnitude (exactly 1 in the real-number model, hence within any
epsilon), and with `mutate = false` the original vector is left unchanged. -/
theorem normalize_err_iff_zero_and_unit (v : Vec) (mutate : Bool) :
    (v.normalize mutate = none ↔ v.dx = 0 ∧ v.dy = 0) ∧
    (∀ r s, v.normalize false = some (r, s) → r.getMagnitude = 1 ∧ s = v) := by
  constructor
  · have key : v.normalize mutate = none ↔
        Real.sqrt (v.dx * v.dx + v.dy * v.dy) = 0 := by
      unfold Vec.normalize
      by_cases h : Real.sqrt (v.dx * v.dx + v.dy * v.dy) = 0
      · simp [h]
      · simp only [if_neg h]
        cases mutate <;> simp [h]
    exact key.trans (Vec.sqrt_mag_eq_zero_iff v)
  · intro r s hr
    unfold Vec.normalize at hr
    by_cases h : Real.sqrt (v.dx * v.dx + v.dy * v.dy) = 0
    · rw [if_pos h] at hr
      exact absurd hr (by simp)
    · rw [if_neg h] at hr
      simp only [Bool.false_eq_true, if_neg] at hr
      have hrr : r = ⟨v.dx / Real.sqrt (v.dx * v.dx + v.dy * v.dy),
          v.dy / Real.sqrt (v.dx * v.dx + v.dy * v.dy)⟩ ∧ s = v := by
        constructor
        · exact (Prod.mk.injEq _ _ _ _ ▸ (Option.some.injEq _ _ ▸ hr)).1.symm
        · exact (Prod.mk.injEq _ _ _ _ ▸ (Option.some.injEq _ _ ▸ hr)).2.symm
      obtain ⟨hrr, hs⟩ := hrr
      refine ⟨?_, hs⟩
      subst hrr
      have hS : 0 ≤ v.dx * v.dx + v.dy * v.dy := by
        nlinarith [sq_nonneg v.dx, sq_nonneg v.dy]
      have hpos : 0 < Real.sqrt (v.dx * v.dx + v.dy * v.dy) :=
        lt_of_le_of_ne (Real.sqrt_nonneg _) (Ne.symm h)
      unfold Vec.getMagnitude
      simp only
      have hSne : v.dx * v.dx + v.dy * v.dy ≠ 0 := by
        intro h0
        apply h
        rw [h0]
        exact Real.sqrt_zero
      rw [div_mul_div_comm, div_mul_div_comm, div_add_div_same,
        Real.mul_self_sqrt hS]
      rw [div_self hSne]
      exact Real.sqrt_one

/-- Witness for C7: applying the theorem to the concrete vector (3, 4), whose
normalization is (3/5, 4/5) with unit magnitude, the original untouched. -/
theorem normalize_err_iff_zero_and_unit_witness :
    Vec.getMagnitude ⟨3 / 5, 4 / 5⟩ = 1 ∧ (⟨3, 4⟩ : Vec) = ⟨3, 4⟩ := by
  have h5 : Real.sqrt ((3 : ℝ) * 3 + 4 * 4) = 5 := by
    rw [show (3 : ℝ) * 3 + 4 * 4 = 5 ^ 2 by norm_num]
    exact Real.sqrt_sq (by norm_num)
  have hcall : Vec.normalize ⟨3, 4⟩ false = some (⟨3 / 5, 4 / 5⟩, ⟨3, 4⟩) := by
    unfold Vec.normalize
    simp only [h5]
    norm_num
  exact (normalize_err_iff_zero_and_unit ⟨3, 4⟩ false).2 _ _ hcall

/- ### Claim C5: Oscillator (src/geometry/Oscillator.ts) -/

/-- JavaScript `%` on numbers: truncated remainder `a - b * trunc(a / b)`. -/
noncomputable def jsRem (a b : ℝ) : ℝ :=
  a - b * (if a / b < 0 then (Int.ceil (a / b) : ℝ) else (Int.floor (a / b) : ℝ))

/-- The mutable state of an `Oscillator` (the `lastUpdateTime` field is
replaced by passing each call's elapsed `deltaTime` explicitly). -/
structure Oscillator where
  amplitude : ℝ
  period : ℝ
  phase : ℝ
  min : ℝ
  max : ℝ
  neutralValue : ℝ
  value : ℝ
  speedFactor : ℝ

/-- The `Oscillator` constructor. -/
def Oscillator.init (min max period : ℝ) : Oscillator :=
  { amplitude := (max - min) / 2
    period := period
    phase := 0
    min := min
    max := max
    neutralValue := min + (max - min) / 2
    value := min + (max - min) / 2
    speedFactor := 1 }

/-- `Oscillator.update` (private), with the elapsed seconds passed in. -/
noncomputable def Oscillator.update (o : Oscillator) (deltaTime : ℝ) : Oscillator :=
  let currentPhase := 2 * Real.pi * (deltaTime / (o.period / o.speedFactor)) + o.phase
  { o with
    value := o.min + o.amplitude + o.amplitude * Real.sin currentPhase
    phase := jsRem currentPhase (2 * Real.pi) }

/-- `Oscillator.setSpeedFactor(factor)`. -/
def Oscillator.setSpeedFactor (o : Oscillator) (factor : ℝ) : Oscillator :=
  { o with speedFactor := factor }

/-- `Oscillator.getValue()`: runs `update` and returns the updated `value`
together with the new state. -/
noncomputable def Oscillator.getValue (o : Oscillator) (deltaTime : ℝ) : ℝ × Oscillator :=
  let o1 := o.update deltaTime
  (o1.value, o1)

/-- One call in an interleaving of `getValue` and `setSpeedFactor` calls;
`getValue dt` carries the wall-clock seconds since the previous call. -/
inductive OscOp where
  | getValue (dt : ℝ)
  | setSpeedFactor (f : ℝ)

/-- Run a sequence of calls against an oscillator, collecting every value a
`getValue` call returned. -/
noncomputable def Oscillator.run (o : Oscillator) : List OscOp → Oscillator × List ℝ
  | [] => (o, [])
  | OscOp.getValue dt :: rest =>
      let step := o.getValue dt
      let tail := Oscillator.run step.2 rest
      (tail.1, step.1 :: tail.2)
  | OscOp.setSpeedFactor f :: rest => Oscillator.run (o.setSpeedFactor f) rest

theorem Oscillator.run_values_in_range_aux (mn mx : ℝ) (h : mn ≤ mx)
    (ops : List OscOp) :
    ∀ o : Oscillator, o.min = mn → o.amplitude = (mx - mn) / 2 →
      ∀ x ∈ (o.run ops).2, mn ≤ x ∧ x ≤ mx := by
  induction ops with
  | nil =>
    intro o _ _ x hx
    simp [Oscillator.run] at hx
  | cons op rest ih =>
    intro o hmin hamp x hx
    cases op with
    | getValue dt =>
      simp only [Oscillator.run, Oscillator.getValue, List.mem_cons] at hx
      rcases hx with hx | hx
      · subst hx
        have hamp0 : 0 ≤ (mx - mn) / 2 := by linarith
        have hsin1 := Real.neg_one_le_sin
          (2 * Real.pi * (dt / (o.period / o.speedFactor)) + o.phase)
        have hsin2 := Real.sin_le_one
          (2 * Real.pi * (dt / (o.period / o.speedFactor)) + o.phase)
        simp only [Oscillator.update, hmin, hamp]
        constructor
        · nlinarith
        · nlinarith
      · exact ih (o.update dt) (by simp [Oscillator.update, hmin])
          (by simp [Oscillator.update, hamp]) x hx
    | setSpeedFactor f =>
      simp only [Oscillator.run] at hx
      exact ih (o.setSpeedFactor f) (by simp [Oscillator.setSpeedFactor, hmin])
        (by simp [Oscillator.setSpeedFactor, hamp]) x hx

/-- Claim C5: for an `Oscillator` constructed with `min <= max`, every value
returned by `getValue()` across any interleaving of `getValue` and
`setSpeedFactor` calls, with arbitrary elapsed times and positive speed
factors, lies in `[min, max]`. -/
theorem oscillator_getValue_in_range (mn mx period : ℝ) (h : mn ≤ mx)
    (ops : List OscOp)
    (hf : ∀ f, OscOp.setSpeedFactor f ∈ ops → 0 < f) :
    ∀ x ∈ ((Oscillator.init mn mx period).run ops).2, mn ≤ x ∧ x ≤ mx := by
  exact Oscillator.run_values_in_range_aux mn mx h ops _ rfl rfl

/-- Witness for C5: a concrete oscillator on `[0, 2]`, run for a single
`getValue` call half a second in; the returned value lies in `[0, 2]`. -/
theorem oscillator_getValue_in_range_witness :
    (0 : ℝ) ≤ ((Oscillator.init 0 2 1).getValue (1 / 2)).1 ∧
      ((Oscillator.init 0 2 1).getValue (1 / 2)).1 ≤ 2 :=
  oscillator_getValue_in_range 0 2 1 zero_le_two [OscOp.getValue (1 / 2)]
    (by intro f hf; simp at hf)
    (((Oscillator.init 0 2 1).getValue (1 / 2)).1)
    (by simp [Oscillator.run])

/- ### Claim C6: Ripple.getOpacity (src/objects/ripple.ts, lines 81-101) -/

/-- `Ripple.lifeTime` (5 seconds). -/
def Ripple.lifeTime : ℝ := 5

/-- `Ripple.peakOpacityTime` (1.5 seconds). -/
def Ripple.peakOpacityTime : ℝ := 3 / 2

/-- `Ripple.getOpacity()`, as a function of the configured `maxOpacity` and
the ripple's elapsed life `existenceTime` in seconds. -/
noncomputable def Ripple.getOpacity (maxOpacity existenceTime : ℝ) : ℝ :=
  if existenceTime < Ripple.peakOpacityTime then
    scaleToRange 0 maxOpacity (existenceTime / Ripple.peakOpacityTime)
  else
    scaleToRange maxOpacity 0
      ((existenceTime - Ripple.peakOpacityTime)
        / (Ripple.lifeTime - Ripple.peakOpacityTime))

/-- Claim C6: for `maxOpacity >= 0` the ripple opacity is 0 at birth, climbs
linearly (hence monotonically) to `maxOpacity` at 1.5 s, then falls linearly
(hence monotonically) back to 0 at the 5 s end of life. -/
theorem ripple_opacity_profile (maxOpacity : ℝ) (hmax : 0 ≤ maxOpacity) :
    Ripple.getOpacity maxOpacity 0 = 0 ∧
    Ripple.getOpacity maxOpacity Ripple.peakOpacityTime = maxOpacity ∧
    Ripple.getOpacity maxOpacity Ripple.lifeTime = 0 ∧
    (∀ t, 0 ≤ t → t < Ripple.peakOpacityTime →
      Ripple.getOpacity maxOpacity t = maxOpacity * (t / Ripple.peakOpacityTime)) ∧
    (∀ t, Ripple.peakOpacityTime ≤ t →
      Ripple.getOpacity maxOpacity t =
        maxOpacity * (1 - (t - Ripple.peakOpacityTime)
          / (Ripple.lifeTime - Ripple.peakOpacityTime))) ∧
    (∀ t u, 0 ≤ t → t ≤ u → u ≤ Ripple.peakOpacityTime →
      Ripple.getOpacity maxOpacity t ≤ Ripple.getOpacity maxOpacity u) ∧
    (∀ t u, Ripple.peakOpacityTime ≤ t → t ≤ u → u ≤ Ripple.lifeTime →
      Ripple.getOpacity maxOpacity u ≤ Ripple.getOpacity maxOpacity t) := by
  unfold Ripple.getOpacity Ripple.peakOpacityTime Ripple.lifeTime scaleToRange
  refine ⟨?_, ?_, ?_, ?_, ?_, ?_, ?_⟩
  · rw [if_pos (by norm_num)]
    ring
  · rw [if_neg (by norm_num)]
    ring
  · rw [if_neg (by norm_num)]
    ring
  · intro t ht1 ht2
    rw [if_pos ht2]
    ring
  · intro t ht
    rw [if_neg (by simp only [not_lt]; linarith)]
    ring
  · intro t u ht htu hu
    by_cases h1 : t < 3 / 2
    · rw [if_pos h1]
      by_cases h2 : u < 3 / 2
      · rw [if_pos h2]
        have key : maxOpacity * (t / (3 / 2)) ≤ maxOpacity * (u / (3 / 2)) := by
          apply mul_le_mul_of_nonneg_left _ hmax
          linarith
        linarith [key]
      · rw [if_neg h2]
        have hu32 : u = 3 / 2 := le_antisymm hu (not_lt.mp h2)
        subst hu32
        norm_num
        nlinarith [mul_nonneg hmax (show (0 : ℝ) ≤ 3 / 2 - t by linarith)]
    · rw [if_neg h1, if_neg (by simp only [not_lt]; linarith)]
      have ht32 : (3 : ℝ) / 2 ≤ t := not_lt.mp h1
      norm_num
      nlinarith [mul_nonneg hmax (show (0 : ℝ) ≤ u - t by linarith)]
  · intro t u ht htu hu
    rw [if_neg (by simp only [not_lt]; linarith),
      if_neg (by simp only [not_lt]; linarith)]
    norm_num
    nlinarith [mul_nonneg hmax (show (0 : ℝ) ≤ u - t by linarith)]

/-- Witness for C6 at the concrete `maxOpacity = 1/5` used by the default
configuration. -/
theorem ripple_opacity_profile_witness :
    Ripple.getOpacity (1 / 5) 0 = 0 ∧
    Ripple.getOpacity (1 / 5) Ripple.peakOpacityTime = 1 / 5 ∧
    Ripple.getOpacity (1 / 5) Ripple.lifeTime = 0 := by
  have h := ripple_opacity_profile (1 / 5) (by simp)
  exact ⟨h.1, h.2.1, h.2.2.1⟩

end

/- ### Spatial grid (src/util/canvasUtil.ts): setupCanvas, getCellIndex,
getAdjacentIndices.  This arithmetic is integer/rational valued, so it is
embedded computably over `ℚ`/`ℤ`. -/

/-- A point with rational coordinates, for the grid arithmetic. -/
structure QPt where
  x : ℚ
  y : ℚ

/-- The grid dimensions `numCellsX`/`numCellsY` set by `setupCanvas`. -/
structure GridDims where
  numCellsX : ℤ
  numCellsY : ℤ

/-- The grid-dimension part of `setupCanvas`:
`numCellsX = Math.ceil(canvas.width / cellSize)` (and likewise for Y), with
`cellSize = 50`. -/
def setupCanvasDims (width height : ℚ) : GridDims :=
  ⟨⌈width / 50⌉, ⌈height / 50⌉⟩

/-- `getCellIndex(point)`: `floor(y/cellSize) * numCellsX + floor(x/cellSize)`. -/
def getCellIndex (dims : GridDims) (p : QPt) : ℤ :=
  ⌊p.y / 50⌋ * dims.numCellsX + ⌊p.x / 50⌋

/-- The values `-range, ..., range` taken by each of the two loop counters in
`getAdjacentIndices`. -/
def rangeList (range : ℤ) : List ℤ :=
  (List.range (2 * range + 1).toNat).map (fun k : ℕ => -range + (k : ℤ))

/-- The double loop of `getAdjacentIndices`, on the already-decomposed cell
coordinates: `dx` is the outer counter, `dy` the inner one, and an adjacent
index is pushed whenever the adjacent cell lies within the grid bounds. -/
def adjacentOf (dims : GridDims) (cellX cellY range : ℤ) : List ℤ :=
  (rangeList range).flatMap (fun dx =>
    (rangeList range).filterMap (fun dy =>
      let adjCellX := cellX + dx
      let adjCellY := cellY + dy
      if 0 ≤ adjCellX ∧ adjCellX < dims.numCellsX ∧
          0 ≤ adjCellY ∧ adjCellY < dims.numCellsY then
        some (adjCellY * dims.numCellsX + adjCellX)
      else
        none))

/-- `getAdjacentIndices(cellIndex, range)` (the uncached function handed to
`memoize`): `cellX = cellIndex % numCellsX` (JavaScript truncated `%`),
`cellY = Math.floor(cellIndex / numCellsX)` (floor of the real quotient,
which is Euclidean division for the positive divisor `numCellsX`). -/
def getAdjacentIndices (dims : GridDims) (cellIndex range : ℤ) : List ℤ :=
  adjacentOf dims (Int.tmod cellIndex dims.numCellsX)
    (cellIndex / dims.numCellsX) range

theorem mem_rangeList (r i : ℤ) (hr : 0 ≤ r) :
    i ∈ rangeList r ↔ -r ≤ i ∧ i ≤ r := by
  unfold rangeList
  rw [List.mem_map]
  constructor
  · rintro ⟨k, hk, rfl⟩
    rw [List.mem_range] at hk
    omega
  · intro hi
    refine ⟨(i + r).toNat, List.mem_range.mpr (by omega), by omega⟩

theorem mem_adjacentOf_iff (dims : GridDims) (cellX cellY range j : ℤ)
    (hr : 0 ≤ range) :
    j ∈ adjacentOf dims cellX cellY range ↔
      ∃ ax ay, (0 ≤ ax ∧ ax < dims.numCellsX) ∧
        (0 ≤ ay ∧ ay < dims.numCellsY) ∧
        |ax - cellX| ≤ range ∧ |ay - cellY| ≤ range ∧
        j = ay * dims.numCellsX + ax := by
  simp only [adjacentOf, List.mem_flatMap, List.mem_filterMap,
    mem_rangeList _ _ hr]
  constructor
  · rintro ⟨dx, hdx, dy, hdy, hif⟩
    by_cases hP : 0 ≤ cellX + dx ∧ cellX + dx < dims.numCellsX ∧
        0 ≤ cellY + dy ∧ cellY + dy < dims.numCellsY
    · rw [if_pos hP] at hif
      obtain rfl := (Option.some.injEq _ _ ▸ hif).symm
      refine ⟨cellX + dx, cellY + dy, ⟨hP.1, hP.2.1⟩, ⟨hP.2.2.1, hP.2.2.2⟩,
        abs_le.mpr ⟨by omega, by omega⟩, abs_le.mpr ⟨by omega, by omega⟩, rfl⟩
    · rw [if_neg hP] at hif
      exact absurd hif (by simp)
  · rintro ⟨ax, ay, hax, hay, haxr, hayr, rfl⟩
    rw [abs_le] at haxr hayr
    refine ⟨ax - cellX, by omega, ay - cellY, by omega, ?_⟩
    have h1 : cellX + (ax - cellX) = ax := by ring
    have h2 : cellY + (ay - cellY) = ay := by ring
    rw [h1, h2, if_pos ⟨hax.1, hax.2, hay.1, hay.2⟩]

theorem tmod_ediv_decompose (numX cx cy : ℤ) (hx : 0 ≤ cx) (hx2 : cx < numX)
    (hy : 0 ≤ cy) :
    Int.tmod (cy * numX + cx) numX = cx ∧
    (cy * numX + cx) / numX = cy := by
  have hnx : 0 < numX := lt_of_le_of_lt hx hx2
  have hnonneg : 0 ≤ cy * numX + cx := by positivity
  constructor
  · rw [Int.tmod_eq_emod hnonneg (le_of_lt hnx), add_comm,
      Int.add_mul_emod_self]
    exact Int.emod_eq_of_lt hx hx2
  · rw [add_comm, Int.add_mul_ediv_right _ _ (ne_of_gt hnx),
      Int.ediv_eq_zero_of_lt hx hx2]
    ring

/-- Claim C8: two points in the same grid cell get the same `getCellIndex`
(with `cellSize = 50`); and for an in-bounds cell `(cx, cy)` of a grid with
positive dimensions and `range >= 1`, `getAdjacentIndices` returns exactly
the cell indices within a `range`-cell Chebyshev radius that lie within the
grid bounds — in particular the queried index itself is returned. -/
theorem grid_cellIndex_and_adjacency (dims : GridDims) (p q : QPt)
    (hsamex : ⌊p.x / 50⌋ = ⌊q.x / 50⌋) (hsamey : ⌊p.y / 50⌋ = ⌊q.y / 50⌋)
    (cx cy range : ℤ)
    (hcx : 0 ≤ cx) (hcx2 : cx < dims.numCellsX)
    (hcy : 0 ≤ cy) (hcy2 : cy < dims.numCellsY)
    (hr : 1 ≤ range) :
    getCellIndex dims p = getCellIndex dims q ∧
    (∀ j, j ∈ getAdjacentIndices dims (cy * dims.numCellsX + cx) range ↔
      ∃ ax ay, (0 ≤ ax ∧ ax < dims.numCellsX) ∧
        (0 ≤ ay ∧ ay < dims.numCellsY) ∧
        |ax - cx| ≤ range ∧ |ay - cy| ≤ range ∧
        j = ay * dims.numCellsX + ax) ∧
    (cy * dims.numCellsX + cx) ∈
      getAdjacentIndices dims (cy * dims.numCellsX + cx) range := by
  obtain ⟨hmod, hdiv⟩ := tmod_ediv_decompose dims.numCellsX cx cy hcx hcx2 hcy
  have hchar : ∀ j, j ∈ getAdjacentIndices dims (cy * dims.numCellsX + cx) range ↔
      ∃ ax ay, (0 ≤ ax ∧ ax < dims.numCellsX) ∧
        (0 ≤ ay ∧ ay < dims.numCellsY) ∧
        |ax - cx| ≤ range ∧ |ay - cy| ≤ range ∧
        j = ay * dims.numCellsX + ax := by
    intro j
    unfold getAdjacentIndices
    rw [hmod, hdiv]
    exact mem_adjacentOf_iff dims cx cy range j (by omega)
  refine ⟨?_, hchar, ?_⟩
  · unfold getCellIndex
    rw [hsamex, hsamey]
  · rw [hchar]
    exact ⟨cx, cy, ⟨hcx, hcx2⟩, ⟨hcy, hcy2⟩, abs_le.mpr ⟨by omega, by omega⟩,
      abs_le.mpr ⟨by omega, by omega⟩, rfl⟩

/-- Witness for C8: a concrete 4x4 grid (a 200x200 canvas), two points in
cell (1, 1), the cell (1, 1) itself, and range 1. -/
theorem grid_cellIndex_and_adjacency_witness :
    getCellIndex (setupCanvasDims 200 200) ⟨60, 70⟩ =
      getCellIndex (setupCanvasDims 200 200) ⟨95, 55⟩ ∧
    (1 * (setupCanvasDims 200 200).numCellsX + 1) ∈
      getAdjacentIndices (setupCanvasDims 200 200)
        (1 * (setupCanvasDims 200 200).numCellsX + 1) 1 := by
  have h := grid_cellIndex_and_adjacency (setupCanvasDims 200 200)
    ⟨60, 70⟩ ⟨95, 55⟩ (by norm_num) (by norm_num) 1 1 1
    (by norm_num) (by norm_num [setupCanvasDims]) (by norm_num)
    (by norm_num [setupCanvasDims]) (by norm_num)
  exact ⟨h.1, h.2.2⟩

/- ### Claim C10: the memoized getAdjacentIndices cache (src/util/util.ts
`memoize`, src/util/canvasUtil.ts `setupCanvas`/`getAdjacentIndices`) -/

/-- The memoize cache: an association list from the stringified argument pair
`(cellIndex, range)` to the cached result.  `JSON.stringify` of the argument
list is injective on these integer pairs, so the key is modelled as the pair
itself. -/
def MemoCache : Type := List ((ℤ × ℤ) × List ℤ)

/-- `cache.has(key)`/`cache.get(key)` of the `Map` inside `memoize`. -/
def cacheFind : MemoCache → ℤ × ℤ → Option (List ℤ)
  | [], _ => none
  | (k, v) :: rest, key => if k = key then some v else cacheFind rest key

/-- The memoized `getAdjacentIndices` as produced by `memoize`: on a cache
hit return the cached result, otherwise compute against the *current* grid
dimensions and store.  Returns (result, new cache). -/
def getAdjacentIndicesMemo (dims : GridDims) (cache : MemoCache)
    (cellIndex range : ℤ) : List ℤ × MemoCache :=
  match cacheFind cache (cellIndex, range) with
  | some v => (v, cache)
  | none =>
      let result := getAdjacentIndices dims cellIndex range
      (result, ((cellIndex, range), result) :: cache)

/-- Claim C10: the cache is keyed only by `(cellIndex, range)` and survives
`setupCanvas`: a key first queried under the old grid dimensions keeps
returning the list computed from the old dimensions after the dimensions
change, and there are concrete dimension pairs (canvas 200x200 resized to
100x100, cell 0, range 1) where that stale list differs from what the new
dimensions would produce. -/
theorem memo_cache_stale_after_resize (w1 h1 w2 h2 : ℚ) (cache : MemoCache)
    (ci r : ℤ) (hmiss : cacheFind cache (ci, r) = none) :
    (getAdjacentIndicesMemo (setupCanvasDims w2 h2)
        (getAdjacentIndicesMemo (setupCanvasDims w1 h1) cache ci r).2 ci r).1 =
      getAdjacentIndices (setupCanvasDims w1 h1) ci r ∧
    getAdjacentIndices (setupCanvasDims 200 200) 0 1 ≠
      getAdjacentIndices (setupCanvasDims 100 100) 0 1 := by
  constructor
  · unfold getAdjacentIndicesMemo
    rw [hmiss]
    simp [cacheFind]
  · have e1 : setupCanvasDims 200 200 = ⟨4, 4⟩ := by
      unfold setupCanvasDims
      norm_num
    have e2 : setupCanvasDims 100 100 = ⟨2, 2⟩ := by
      unfold setupCanvasDims
      norm_num
    rw [e1, e2]
    decide

/-- Witness for C10, applied to the empty cache and the concrete resize from
a 200x200 canvas to a 100x100 canvas at cell 0, range 1. -/
theorem memo_cache_stale_after_resize_witness :
    (getAdjacentIndicesMemo (setupCanvasDims 100 100)
        (getAdjacentIndicesMemo (setupCanvasDims 200 200) [] 0 1).2 0 1).1 =
      getAdjacentIndices (setupCanvasDims 200 200) 0 1 ∧
    getAdjacentIndices (setupCanvasDims 200 200) 0 1 ≠
      getAdjacentIndices (setupCanvasDims 100 100) 0 1 := by
  exact memo_cache_stale_after_resize 200 200 100 100 [] 0 1 rfl

/- ### Claim C1: DrawManager (src/drawManager.ts) -/

/-- The `DrawLayer` enum, in declaration order (the source comments this
order as top to bottom). -/
inductive DrawLayer where
  | DEV
  | LANTERN
  | FOOD
  | PETAL
  | WAVE
  | WATER_SURFACE
  | RIPPLE
  | LANTERN_SHADOW
  | FISH
deriving DecidableEq

/-- The enum's declaration order, as recovered by the `Object.keys` walk. -/
def drawLayerDecl : List DrawLayer :=
  [DrawLayer.DEV, DrawLayer.LANTERN, DrawLayer.FOOD, DrawLayer.PETAL,
   DrawLayer.WAVE, DrawLayer.WATER_SURFACE, DrawLayer.RIPPLE,
   DrawLayer.LANTERN_SHADOW, DrawLayer.FISH]

/-- `layerDrawOrder`: the declaration order reversed (the source reverses
because "bottom" layers need to be drawn first). -/
def layerDrawOrder : List DrawLayer :=
  drawLayerDecl.reverse

/-- The `scheduledDraws` map, from layer to the queued draw callbacks (the
opaque callbacks are represented by natural-number tags).  A layer with no
entry behaves as the empty list (`... || []`). -/
def DrawSchedule : Type := DrawLayer → List ℕ

/-- The empty schedule (a fresh `DrawManager`, or one just flushed). -/
def emptySchedule : DrawSchedule := fun _ => []

/-- `DrawManager.scheduleDraw(layer, drawCallback)`: append the callback to
the layer's queue. -/
def scheduleDraw (s : DrawSchedule) (layer : DrawLayer) (op : ℕ) : DrawSchedule :=
  fun l => if l = layer then s l ++ [op] else s l

/-- The schedule resulting from a sequence of `scheduleDraw` calls. -/
def buildSchedule (calls : List (DrawLayer × ℕ)) : DrawSchedule :=
  calls.foldl (fun s c => scheduleDraw s c.1 c.2) emptySchedule

/-- `DrawManager.executeScheduledDraws()`: run every queued callback layer by
layer following `layerDrawOrder`, then clear the schedule.  Returns (the
executed callbacks in execution order, the schedule afterwards). -/
def executeScheduledDraws (s : DrawSchedule) : List ℕ × DrawSchedule :=
  (layerDrawOrder.flatMap s, emptySchedule)

theorem buildSchedule_foldl (calls : List (DrawLayer × ℕ)) :
    ∀ (s : DrawSchedule) (l : DrawLayer),
      (calls.foldl (fun s c => scheduleDraw s c.1 c.2) s) l =
        s l ++ (calls.filter (fun c => decide (c.1 = l))).map Prod.snd := by
  induction calls with
  | nil =>
    intro s l
    simp
  | cons c cs ih =>
    intro s l
    rw [List.foldl_cons, ih]
    by_cases hc : c.1 = l
    · subst hc
      simp [scheduleDraw]
    · have hlc : ¬l = c.1 := fun h => hc h.symm
      rw [List.filter_cons]
      simp only [hc, decide_eq_false (fun h => hc h)]
      simp [scheduleDraw, hlc]

theorem buildSchedule_apply (calls : List (DrawLayer × ℕ)) (l : DrawLayer) :
    buildSchedule calls l =
      (calls.filter (fun c => decide (c.1 = l))).map Prod.snd := by
  rw [buildSchedule, buildSchedule_foldl]
  simp [emptySchedule]

/-- Counterexample to C1: schedule one callback each on the debug, lantern
and fish layers (tags 0, 1 and 2).  The flush executes them as [2, 1, 0] —
fish first and the debug layer last — not in the claimed order [0, 1, 2]
(debug first, then lantern, ..., fish last). -/
theorem drawManager_claimed_order_refuted :
    (executeScheduledDraws (buildSchedule
      [(DrawLayer.DEV, 0), (DrawLayer.LANTERN, 1), (DrawLayer.FISH, 2)])).1 =
      [2, 1, 0] ∧ ([2, 1, 0] : List ℕ) ≠ [0, 1, 2] := by
  constructor
  · rfl
  · decide

/-- Amended C1: for every sequence of `scheduleDraw` calls, the flush
executes the scheduled callbacks in the fixed order fish, lantern-shadow,
ripple, water-surface, wave, petal, food, lantern, with the debug layer's
callbacks executed last (each layer's callbacks in scheduling order), and
the schedule is empty after the flush. -/
theorem drawManager_flush_order (calls : List (DrawLayer × ℕ)) :
    (executeScheduledDraws (buildSchedule calls)).1 =
      (calls.filter (fun c => decide (c.1 = DrawLayer.FISH))).map Prod.snd ++
      (calls.filter (fun c => decide (c.1 = DrawLayer.LANTERN_SHADOW))).map Prod.snd ++
      (calls.filter (fun c => decide (c.1 = DrawLayer.RIPPLE))).map Prod.snd ++
      (calls.filter (fun c => decide (c.1 = DrawLayer.WATER_SURFACE))).map Prod.snd ++
      (calls.filter (fun c => decide (c.1 = DrawLayer.WAVE))).map Prod.snd ++
      (calls.filter (fun c => decide (c.1 = DrawLayer.PETAL))).map Prod.snd ++
      (calls.filter (fun c => decide (c.1 = DrawLayer.FOOD))).map Prod.snd ++
      (calls.filter (fun c => decide (c.1 = DrawLayer.LANTERN))).map Prod.snd ++
      (calls.filter (fun c => decide (c.1 = DrawLayer.DEV))).map Prod.snd ∧
    ∀ l, (executeScheduledDraws (buildSchedule calls)).2 l = [] := by
  constructor
  · show layerDrawOrder.flatMap (buildSchedule calls) = _
    rw [show layerDrawOrder =
      [DrawLayer.FISH, DrawLayer.LANTERN_SHADOW, DrawLayer.RIPPLE,
       DrawLayer.WATER_SURFACE, DrawLayer.WAVE, DrawLayer.PETAL,
       DrawLayer.FOOD, DrawLayer.LANTERN, DrawLayer.DEV] from rfl]
    simp only [List.flatMap_cons, List.flatMap_nil, List.append_nil,
      buildSchedule_apply, List.append_assoc]
  · intro l
    rfl

/- ### Canvas geometry (src/util/canvasUtil.ts): bounds and edge points -/

noncomputable section

/-- The drawing surface dimensions (`canvas.width`, `canvas.height`). -/
structure Canvas where
  width : ℝ
  height : ℝ

/-- `isPointOutOfBounds(point, tolerance)`. -/
def isPointOutOfBounds (cv : Canvas) (p : Pt) (tolerance : ℝ) : Prop :=
  p.x < -tolerance ∨ p.x > cv.width + tolerance ∨
  p.y < -tolerance ∨ p.y > cv.height + tolerance

instance (cv : Canvas) (p : Pt) (t : ℝ) : Decidable (isPointOutOfBounds cv p t) := by
  unfold isPointOutOfBounds
  infer_instance

/-- `getDistanceToCanvasBorder(point)`: signed distance to the nearest
border, negative when the point is outside the canvas. -/
def getDistanceToCanvasBorder (cv : Canvas) (p : Pt) : ℝ :=
  let minDistanceToBorder :=
    |min (min p.x (cv.width - p.x)) (min p.y (cv.height - p.y))|
  if p.x < 0 ∨ p.x > cv.width ∨ p.y < 0 ∨ p.y > cv.height then
    -minDistanceToBorder
  else
    minDistanceToBorder

/-- `getRandomNumber(min, max)` with the `Math.random()` draw `r` passed
explicitly: `r * (max - min) + min`. -/
def getRandomNumber (min max r : ℝ) : ℝ :=
  r * (max - min) + min

/-- `Vector.getDownRightDirection()`: a normalized `(random, -random)`
direction, with the two `Math.random()` draws passed explicitly.  `none`
models the normalization error when both draws are 0. -/
def getDownRightDirection (r1 r2 : ℝ) : Option Vec :=
  Vec.normalized ⟨r1, -r2⟩

/-- `getTopLeftCornerPoint(outsideDistance)`: a random point just outside
either the top edge's left half or the left edge's top half; the
`getRandomItem([true, false])` coin and the `getRandomNumber` draw are
passed explicitly. -/
def getTopLeftCornerPoint (cv : Canvas) (outsideDistance : ℝ) (top : Bool)
    (r : ℝ) : Pt :=
  if top then
    ⟨getRandomNumber 0 (cv.width / 2) r, cv.height + outsideDistance⟩
  else
    ⟨0 - outsideDistance, getRandomNumber (cv.height / 2) cv.height r⟩

/-- `getRandomEdgePoint(outsideDistance)`: one of the four edge-point
helpers, with the edge choice and the coordinate draw passed explicitly. -/
def getRandomEdgePoint (cv : Canvas) (outsideDistance : ℝ) (edge : Fin 4)
    (r : ℝ) : Pt :=
  match edge with
  | 0 => ⟨r * cv.width, cv.height + outsideDistance⟩
  | 1 => ⟨r * cv.width, 0 - outsideDistance⟩
  | 2 => ⟨0 - outsideDistance, r * cv.height⟩
  | 3 => ⟨cv.width + outsideDistance, r * cv.height⟩

/- ### Claim C2: KoiFish.smoothenDirectionChange
(src/objects/koifish.ts, lines 334-356) -/

/-- `KoiFish.maxRotationAnglePerSecond` (18 degrees). -/
def KoiFish.maxRotationAnglePerSecond : ℝ := 18

/-- `KoiFish.maxSpeedChangePerSecond` (1.5 units). -/
def KoiFish.maxSpeedChangePerSecond : ℝ := 3 / 2

/-- `KoiFish.canvasExitDistance` (-20 units). -/
def KoiFish.canvasExitDistance : ℝ := -20

/-- The fish fields read by `smoothenDirectionChange`. -/
structure SmoothState where
  position : Pt
  targetPoint : Pt
  direction : Vec
  turnMultiplier : ℝ
  lastUpdateTime : ℝ

/-- `KoiFish.smoothenDirectionChange`, returning the fish's direction after
the call (`now` is the `Date.now()` reading inside `getElapsedSeconds`).
The rotation is only applied when the desired change exceeds the 2-degree
deadband. -/
def smoothenDirectionChange (f : SmoothState) (now : ℝ) : Vec :=
  let secondsSinceLastUpdate := getElapsedSeconds f.lastUpdateTime now
  let maxRotationAngle := KoiFish.maxRotationAnglePerSecond * secondsSinceLastUpdate
  let targetVector := f.position.getVectorTo f.targetPoint
  let desiredAngleChange := Vec.signedAngleBetween f.direction targetVector
  let finalAngleChange :=
    min maxRotationAngle |desiredAngleChange| * jsSign desiredAngleChange *
      f.turnMultiplier
  if |desiredAngleChange| > 2 then f.direction.rotateVector finalAngleChange
  else f.direction

theorem Vec.rotateVector_zero (v : Vec) : v.rotateVector 0 = v := by
  unfold Vec.rotateVector
  norm_num

theorem abs_jsSign_le_one (x : ℝ) : |jsSign x| ≤ 1 := by
  unfold jsSign
  split_ifs <;> simp

/-- Claim C2: across a single `smoothenDirectionChange` the fish's heading
changes by a rotation of at most `18 * elapsedSeconds * turnMultiplier`
degrees, and a desired turn of 2 degrees or less leaves the heading
untouched. -/
theorem fish_rotation_rate_bound (f : SmoothState) (now : ℝ)
    (hnow : f.lastUpdateTime ≤ now) (htm : 0 ≤ f.turnMultiplier) :
    (∃ θ, |θ| ≤ KoiFish.maxRotationAnglePerSecond *
        getElapsedSeconds f.lastUpdateTime now * f.turnMultiplier ∧
      smoothenDirectionChange f now = f.direction.rotateVector θ) ∧
    (|Vec.signedAngleBetween f.direction (f.position.getVectorTo f.targetPoint)| ≤ 2 →
      smoothenDirectionChange f now = f.direction) := by
  have helapsed : 0 ≤ getElapsedSeconds f.lastUpdateTime now := by
    unfold getElapsedSeconds
    linarith
  have hbound : 0 ≤ KoiFish.maxRotationAnglePerSecond *
      getElapsedSeconds f.lastUpdateTime now * f.turnMultiplier := by
    unfold KoiFish.maxRotationAnglePerSecond
    positivity
  set d := Vec.signedAngleBetween f.direction (f.position.getVectorTo f.targetPoint)
    with hd
  have expand : smoothenDirectionChange f now =
      if |d| > 2 then
        f.direction.rotateVector
          (min (KoiFish.maxRotationAnglePerSecond *
            getElapsedSeconds f.lastUpdateTime now) |d| * jsSign d *
              f.turnMultiplier)
      else f.direction := rfl
  constructor
  · by_cases hdead : |d| > 2
    · refine ⟨min (KoiFish.maxRotationAnglePerSecond *
        getElapsedSeconds f.lastUpdateTime now) |d| * jsSign d *
          f.turnMultiplier, ?_, ?_⟩
      · have hmin0 : 0 ≤ min (KoiFish.maxRotationAnglePerSecond *
            getElapsedSeconds f.lastUpdateTime now) |d| := by
          apply le_min
          · unfold KoiFish.maxRotationAnglePerSecond
            positivity
          · exact abs_nonneg d
        rw [abs_mul, abs_mul, abs_of_nonneg hmin0, abs_of_nonneg htm]
        have h1 : min (KoiFish.maxRotationAnglePerSecond *
            getElapsedSeconds f.lastUpdateTime now) |d| * |jsSign d| ≤
            KoiFish.maxRotationAnglePerSecond *
              getElapsedSeconds f.lastUpdateTime now * 1 := by
          apply mul_le_mul (min_le_left _ _) (abs_jsSign_le_one d)
            (abs_nonneg _)
          unfold KoiFish.maxRotationAnglePerSecond
          positivity
        rw [mul_one] at h1
        exact mul_le_mul_of_nonneg_right h1 htm
      · rw [expand, if_pos hdead]
    · refine ⟨0, by simpa using hbound, ?_⟩
      rw [Vec.rotateVector_zero, expand, if_neg hdead]
  · intro hsmall
    rw [expand, if_neg (by rw [not_lt]; exact hsmall)]

/-- Witness for C2: a fish pointing up at the origin, targeting a point
straight above, one second after its previous update. -/
theorem fish_rotation_rate_bound_witness :
    (∃ θ, |θ| ≤ KoiFish.maxRotationAnglePerSecond *
        getElapsedSeconds 0 1000 * 1 ∧
      smoothenDirectionChange ⟨⟨0, 0⟩, ⟨0, 100⟩, ⟨0, 1⟩, 1, 0⟩ 1000 =
        Vec.rotateVector ⟨0, 1⟩ θ) := by
  exact (fish_rotation_rate_bound ⟨⟨0, 0⟩, ⟨0, 100⟩, ⟨0, 1⟩, 1, 0⟩ 1000
    (by norm_num) (by norm_num)).1

/- ### Claim C9: Wave re-entry (src/objects/wave.ts, lines 73-103;
src/util/canvasUtil.ts getTopLeftCornerPoint, lines 141-153) -/

/-- The state of a `Wave` (color/size play no role in update). -/
structure Wave where
  id : ℕ
  position : Pt
  direction : Vec
  lastUpdateTime : ℝ
  speed : ℝ

/-- The random draws consumed by `Wave.prepareReentry`. -/
structure WaveOracle where
  /-- `getRandomItem([true, false])` inside `getTopLeftCornerPoint`. -/
  cornerTop : Bool
  /-- the `getRandomNumber` draw inside `getTopLeftCornerPoint`, in [0, 1). -/
  rCorner : ℝ
  /-- first `Math.random()` of `getDownRightDirection`, in [0, 1). -/
  rDir1 : ℝ
  /-- second `Math.random()` of `getDownRightDirection`, in [0, 1). -/
  rDir2 : ℝ
  /-- ambient mode: which edge `getRandomEdgePoint` picks. -/
  edgeChoice : Fin 4
  /-- ambient mode: the edge-point coordinate draw, in [0, 1). -/
  rEdge : ℝ
  /-- ambient mode: the `Point.getRandomPoint()` target. -/
  randPt : Pt

/-- `Wave.prepareReentry()`: river mode re-enters at a top-left corner point
300 units outside with a down-right direction; ambient mode re-enters at a
random edge point aiming at a random interior point.  `none` models a thrown
normalization error. -/
def Wave.prepareReentry (riverMode : Bool) (cv : Canvas) (w : Wave)
    (o : WaveOracle) : Option Wave :=
  if riverMode then
    match getDownRightDirection o.rDir1 o.rDir2 with
    | none => none
    | some newDirection =>
        some { w with
          position := getTopLeftCornerPoint cv 300 o.cornerTop o.rCorner
          direction := newDirection }
  else
    let newPosition := getRandomEdgePoint cv 300 o.edgeChoice o.rEdge
    match (newPosition.getVectorTo o.randPt).normalized with
    | none => none
    | some newDirection =>
        some { w with position := newPosition, direction := newDirection }

/-- `Wave.update()`: translate along the direction by `speed * elapsed`,
re-enter when out of bounds past the 500-unit margin, stamp the update
time.  The wave is never removed from the coordinator's `waveMap`; the only
failure is a (probability-zero) normalization error inside re-entry. -/
def Wave.update (riverMode : Bool) (cv : Canvas) (w : Wave) (now : ℝ)
    (o : WaveOracle) : Option Wave :=
  let moved := { w with
    position := w.position.applyVector
      (w.direction.scale (w.speed * getElapsedSeconds w.lastUpdateTime now)) }
  let reentered :=
    if isPointOutOfBounds cv moved.position 500 then
      Wave.prepareReentry riverMode cv moved o
    else
      some moved
  reentered.map (fun w1 => { w1 with lastUpdateTime := now })

/-- Counterexample to C9: river mode, a wave whose translated position is
600 units above the canvas, and a re-entry whose first `Math.random()` draw
is exactly 0 (a value `Math.random` can return).  The update succeeds and
re-enters, but the resulting direction is straight down: `dx = 0`, refuting
the claimed strict `dx > 0`. -/
theorem wave_downright_strict_refuted :
    (Wave.update true ⟨1000, 800⟩ ⟨7, ⟨100, -600⟩, ⟨0, -1⟩, 0, 10⟩ 0
        ⟨true, 0, 0, 1 / 2, 0, 0, ⟨0, 0⟩⟩).map (fun w1 => w1.direction.dx) =
      some 0 ∧ ¬ ((0 : ℝ) > 0) := by
  constructor
  · have hmag : Real.sqrt ((0 : ℝ) * 0 + -(1 / 2) * -(1 / 2)) = 1 / 2 := by
      rw [show (0 : ℝ) * 0 + -(1 / 2) * -(1 / 2) = (1 / 2) ^ 2 by norm_num]
      exact Real.sqrt_sq (by norm_num)
    have hdir : getDownRightDirection 0 (1 / 2) = some ⟨0, -1⟩ := by
      unfold getDownRightDirection Vec.normalized Vec.normalize
      rw [show ((⟨0, -(1 / 2)⟩ : Vec)).dx = 0 from rfl]
      simp only [hmag]
      norm_num
    simp only [Wave.update]
    rw [if_pos ?side]
    case side =>
      unfold isPointOutOfBounds
      simp only [Pt.applyVector, Vec.scale, getElapsedSeconds]
      norm_num
    unfold Wave.prepareReentry
    rw [if_pos rfl]
    rw [show (⟨true, 0, 0, 1 / 2, 0, 0, ⟨0, 0⟩⟩ : WaveOracle).rDir1 = 0 from rfl,
      show (⟨true, 0, 0, 1 / 2, 0, 0, ⟨0, 0⟩⟩ : WaveOracle).rDir2 = 1 / 2 from rfl,
      hdir]
    rfl
  · norm_num

/-- Amended C9: under river mode, when the translated position is out of
bounds past the 500-unit margin and the two direction draws are not both
zero, `update()` keeps the same wave (same id, `some` result: the object is
never removed), teleports it to a point 300 units outside the top-left
corner (on the left half of the top edge or the top half of the left edge),
and gives it a direction with `dx >= 0` and `dy <= 0`, not both zero
(straight-down and straight-right being possible because `Math.random()`
can return 0). -/
theorem wave_reentry_river (cv : Canvas) (w : Wave) (now : ℝ) (o : WaveOracle)
    (hw : 0 < cv.width) (hh : 0 < cv.height)
    (hoob : isPointOutOfBounds cv
      (w.position.applyVector
        (w.direction.scale (w.speed * getElapsedSeconds w.lastUpdateTime now)))
      500)
    (h1a : 0 ≤ o.rDir1) (h1b : o.rDir1 < 1)
    (h2a : 0 ≤ o.rDir2) (h2b : o.rDir2 < 1)
    (hnz : ¬(o.rDir1 = 0 ∧ o.rDir2 = 0))
    (hra : 0 ≤ o.rCorner) (hrb : o.rCorner < 1) :
    ∃ w1, Wave.update true cv w now o = some w1 ∧
      w1.id = w.id ∧
      ((w1.position.y = cv.height + 300 ∧ 0 ≤ w1.position.x ∧
          w1.position.x < cv.width / 2) ∨
        (w1.position.x = -300 ∧ cv.height / 2 ≤ w1.position.y ∧
          w1.position.y < cv.height)) ∧
      0 ≤ w1.direction.dx ∧ w1.direction.dy ≤ 0 ∧
      ¬(w1.direction.dx = 0 ∧ w1.direction.dy = 0) := by
  have hS : 0 < o.rDir1 * o.rDir1 + -o.rDir2 * -o.rDir2 := by
    rcases not_and_or.mp hnz with h | h
    · have hp : 0 < o.rDir1 := lt_of_le_of_ne h1a (Ne.symm h)
      nlinarith [sq_nonneg o.rDir2]
    · have hp : 0 < o.rDir2 := lt_of_le_of_ne h2a (Ne.symm h)
      nlinarith [sq_nonneg o.rDir1]
  have hm : 0 < Real.sqrt (o.rDir1 * o.rDir1 + -o.rDir2 * -o.rDir2) :=
    Real.sqrt_pos.mpr hS
  set m := Real.sqrt (o.rDir1 * o.rDir1 + -o.rDir2 * -o.rDir2) with hmdef
  have hdir : getDownRightDirection o.rDir1 o.rDir2 =
      some ⟨o.rDir1 / m, -o.rDir2 / m⟩ := by
    unfold getDownRightDirection Vec.normalized Vec.normalize
    rw [show ((⟨o.rDir1, -o.rDir2⟩ : Vec)).dx = o.rDir1 from rfl,
      show ((⟨o.rDir1, -o.rDir2⟩ : Vec)).dy = -o.rDir2 from rfl, ← hmdef,
      if_neg (ne_of_gt hm)]
    rfl
  refine ⟨{ id := w.id,
            position := getTopLeftCornerPoint cv 300 o.cornerTop o.rCorner,
            direction := ⟨o.rDir1 / m, -o.rDir2 / m⟩,
            lastUpdateTime := now,
            speed := w.speed }, ?_, rfl, ?_, ?_, ?_, ?_⟩
  · simp only [Wave.update]
    rw [if_pos hoob]
    unfold Wave.prepareReentry
    rw [if_pos rfl, hdir]
    rfl
  · unfold getTopLeftCornerPoint getRandomNumber
    by_cases htop : o.cornerTop
    · rw [if_pos (by simp [htop])]
      left
      refine ⟨rfl, ?_, ?_⟩
      · show (0 : ℝ) ≤ o.rCorner * (cv.width / 2 - 0) + 0
        nlinarith
      · show o.rCorner * (cv.width / 2 - 0) + 0 < cv.width / 2
        nlinarith
    · rw [if_neg (by simp [htop])]
      right
      refine ⟨by norm_num, ?_, ?_⟩
      · show cv.height / 2 ≤ o.rCorner * (cv.height - cv.height / 2) + cv.height / 2
        nlinarith
      · show o.rCorner * (cv.height - cv.height / 2) + cv.height / 2 < cv.height
        nlinarith
  · exact div_nonneg h1a (le_of_lt hm)
  · show -o.rDir2 / m ≤ 0
    rw [neg_div]
    simp only [neg_nonpos]
    exact div_nonneg h2a (le_of_lt hm)
  · rintro ⟨hdx, hdy⟩
    apply hnz
    constructor
    · exact (div_eq_zero_iff.mp hdx).resolve_right (ne_of_gt hm)
    · have h0 : -o.rDir2 = 0 :=
        (div_eq_zero_iff.mp hdy).resolve_right (ne_of_gt hm)
      linarith

/-- Witness for the amended C9 at a concrete wave: a 1000x800 canvas, a wave
at (100, -600) (more than 500 units below the canvas), with concrete
in-range random draws. -/
theorem wave_reentry_river_witness :
    ∃ w1, Wave.update true ⟨1000, 800⟩ ⟨7, ⟨100, -600⟩, ⟨0, -1⟩, 0, 10⟩ 0
        ⟨true, 1 / 4, 1 / 3, 1 / 2, 0, 0, ⟨0, 0⟩⟩ = some w1 ∧
      w1.id = 7 ∧
      ((w1.position.y = (800 : ℝ) + 300 ∧ 0 ≤ w1.position.x ∧
          w1.position.x < (1000 : ℝ) / 2) ∨
        (w1.position.x = -300 ∧ (800 : ℝ) / 2 ≤ w1.position.y ∧
          w1.position.y < (800 : ℝ))) ∧
      0 ≤ w1.direction.dx ∧ w1.direction.dy ≤ 0 ∧
      ¬(w1.direction.dx = 0 ∧ w1.direction.dy = 0) :=
  wave_reentry_river ⟨1000, 800⟩ ⟨7, ⟨100, -600⟩, ⟨0, -1⟩, 0, 10⟩ 0
    ⟨true, 1 / 4, 1 / 3, 1 / 2, 0, 0, ⟨0, 0⟩⟩
    (by norm_num) (by norm_num)
    (by unfold isPointOutOfBounds Pt.applyVector Vec.scale getElapsedSeconds
        norm_num)
    (by norm_num) (by norm_num) (by norm_num) (by norm_num)
    (by norm_num) (by norm_num) (by norm_num)

end

/- ### Claim C3: leader/follower pairing
(src/objects/koifish.ts: setLeaderFollower/unsetLeaderFollower lines 945-968,
checkAndSetFollowBehavior lines 471-580, checkAndSetFoodBehavior lines
397-468, handleOutOfBounds lines 209-215, standardBehavior lines 593-617)

The link-and-target-reference structure of the fish population is modelled
as a transition system.  Point objects are modelled by reference identity:
`TargetRef` says which Point object a fish's `targetPoint` field aliases. -/

/-- Fish identifiers. -/
abbrev FishId : Type := ℕ

/-- The two follower slots (`KoiFish.LEFT_SIDE`/`RIGHT_SIDE`). -/
inductive Side where
  | left
  | right
deriving DecidableEq

/-- Which Point object a fish's `targetPoint` references: a free-standing
point (an initial/random target, serial-numbered), a food's position object,
or a leader's left/right follow-point object. -/
inductive TargetRef where
  | ownPt (serial : ℕ)
  | foodPt (serial : ℕ)
  | followPt (leader : FishId) (side : Side)
deriving DecidableEq

/-- The pairing-relevant fields of one `KoiFish`. -/
structure FishLinks where
  leaderKoiFish : Option FishId
  leftFollower : Option FishId
  rightFollower : Option FishId
  targetPoint : TargetRef

/-- Read a follower slot by side. -/
def FishLinks.follower (r : FishLinks) : Side → Option FishId
  | Side.left => r.leftFollower
  | Side.right => r.rightFollower

/-- The population state: each fish's link fields, plus a serial counter for
newly allocated Point objects. -/
structure LinkWorld where
  fish : FishId → FishLinks
  fresh : ℕ

/-- Replace one fish's record. -/
def LinkWorld.updateFish (w : LinkWorld) (i : FishId)
    (g : FishLinks → FishLinks) : LinkWorld :=
  { w with fish := fun j => if j = i then g (w.fish j) else w.fish j }

/-- Set a fish's target reference (a `this.targetPoint = ...` assignment). -/
def LinkWorld.setTarget (w : LinkWorld) (i : FishId) (t : TargetRef) : LinkWorld :=
  w.updateFish i (fun r => { r with targetPoint := t })

/-- Allocate a fresh Point serial (a `new Point`/`Point.getRandomPoint`). -/
def LinkWorld.bumpFresh (w : LinkWorld) : LinkWorld :=
  { w with fresh := w.fresh + 1 }

/-- `KoiFish.setLeaderFollower(leader, follower, side)`, statement by
statement: set the follower's leader, then fill the chosen slot and alias
the follower's target point to that slot's follow point. -/
def LinkWorld.setLeaderFollower (w : LinkWorld) (l f : FishId) (side : Side) :
    LinkWorld :=
  let w1 := w.updateFish f (fun r => { r with leaderKoiFish := some l })
  match side with
  | Side.left =>
      (w1.updateFish l (fun r => { r with leftFollower := some f })).updateFish
        f (fun r => { r with targetPoint := TargetRef.followPt l Side.left })
  | Side.right =>
      (w1.updateFish l (fun r => { r with rightFollower := some f })).updateFish
        f (fun r => { r with targetPoint := TargetRef.followPt l Side.right })

/-- `KoiFish.unsetLeaderFollower(leader, follower)`: clear the left slot if
it holds the follower, otherwise clear the right slot; then clear the
follower's leader reference.  Both sides are cleared in the same call. -/
def LinkWorld.unsetLeaderFollower (w : LinkWorld) (l f : FishId) : LinkWorld :=
  let w1 := w.updateFish l (fun r =>
    if r.leftFollower = some f then { r with leftFollower := none }
    else { r with rightFollower := none })
  w1.updateFish f (fun r => { r with leaderKoiFish := none })

/-- The operations the source performs on the link/target structure, each
named after its code path.  Guards mirror the conditions the code checks on
this state before the mutation. -/
inductive LinkOp where
  /-- `checkAndSetFollowBehavior`, unpaired branch: pair with a nearby
  leader.  The code reaches `setLeaderFollower` only when the follower has
  no leader (`!this.leaderKoiFish`), the chosen side is free (it is drawn
  from `getAvailableFollowPositions()`), and the leader is another fish
  (`getNearbyObjects` filters out the requester). -/
  | pairFromFollow (l f : FishId) (side : Side)
  /-- `checkAndSetFoodBehavior`, `closestFood` branch: unset any pairing,
  then alias `targetPoint` to the food's position object. -/
  | breakByFood (f : FishId) (foodSerial : ℕ)
  /-- `checkAndSetFollowBehavior`, paired branch: after 180 s of following
  or when drifted more than 100 units from the follow point, unset the
  pairing and pick a fresh random target. -/
  | breakFollow (f : FishId)
  /-- `checkAndSetFollowBehavior`, first guard (`desiredFood` while paired):
  a bare unset with no retargeting. -/
  | bareUnset (f : FishId)
  /-- `KoiFish.handleOutOfBounds`: replace `targetPoint` with a fresh random
  point.  The pairing is NOT touched. -/
  | outOfBounds (f : FishId)
  /-- `standardBehavior`: re-pick a random target once close to the current
  one.  Runs only when the fish has no food target and no leader. -/
  | standardRetarget (f : FishId)

/-- One operation against the population state. -/
def LinkWorld.step (w : LinkWorld) : LinkOp → LinkWorld
  | LinkOp.pairFromFollow l f side =>
      if (w.fish f).leaderKoiFish = none ∧ (w.fish l).follower side = none ∧
          l ≠ f then
        w.setLeaderFollower l f side
      else w
  | LinkOp.breakByFood f foodSerial =>
      match (w.fish f).leaderKoiFish with
      | some l => (w.unsetLeaderFollower l f).setTarget f (TargetRef.foodPt foodSerial)
      | none => w.setTarget f (TargetRef.foodPt foodSerial)
  | LinkOp.breakFollow f =>
      match (w.fish f).leaderKoiFish with
      | some l =>
          ((w.unsetLeaderFollower l f).setTarget f (TargetRef.ownPt w.fresh)).bumpFresh
      | none => w
  | LinkOp.bareUnset f =>
      match (w.fish f).leaderKoiFish with
      | some l => w.unsetLeaderFollower l f
      | none => w
  | LinkOp.outOfBounds f =>
      (w.setTarget f (TargetRef.ownPt w.fresh)).bumpFresh
  | LinkOp.standardRetarget f =>
      if (w.fish f).leaderKoiFish = none then
        (w.setTarget f (TargetRef.ownPt w.fresh)).bumpFresh
      else w

/-- The initial population: no pairings, everyone targeting a free-standing
point. -/
def initLinkWorld : LinkWorld :=
  ⟨fun _ => ⟨none, none, none, TargetRef.ownPt 0⟩, 1⟩

/-- Run a sequence of operations from the initial population. -/
def LinkWorld.run (ops : List LinkOp) : LinkWorld :=
  ops.foldl LinkWorld.step initLinkWorld

/-- The slot-symmetry invariant: a fish's leader reference is never to
itself, whenever A is B's leader B occupies exactly one of A's two follower
slots, and whenever B occupies a follower slot of A then A is B's leader. -/
def SlotInv (w : LinkWorld) : Prop :=
  ∀ l f : FishId,
    ((w.fish f).leaderKoiFish = some l →
      l ≠ f ∧
      (((w.fish l).leftFollower = some f ∧ ¬(w.fish l).rightFollower = some f) ∨
        (¬(w.fish l).leftFollower = some f ∧ (w.fish l).rightFollower = some f))) ∧
    (((w.fish l).leftFollower = some f ∨ (w.fish l).rightFollower = some f) →
      (w.fish f).leaderKoiFish = some l)

theorem LinkWorld.updateFish_same (w : LinkWorld) (i : FishId)
    (g : FishLinks → FishLinks) : (w.updateFish i g).fish i = g (w.fish i) := by
  simp [LinkWorld.updateFish]

theorem LinkWorld.updateFish_other (w : LinkWorld) (i j : FishId)
    (g : FishLinks → FishLinks) (h : j ≠ i) :
    (w.updateFish i g).fish j = w.fish j := by
  simp [LinkWorld.updateFish, h]

theorem setLF_fish (w : LinkWorld) (l f : FishId) (side : Side) (hlf : l ≠ f)
    (j : FishId) :
    (w.setLeaderFollower l f side).fish j =
      if j = f then
        { w.fish f with
          leaderKoiFish := some l
          targetPoint := TargetRef.followPt l side }
      else if j = l then
        (match side with
          | Side.left => { w.fish l with leftFollower := some f }
          | Side.right => { w.fish l with rightFollower := some f })
      else w.fish j := by
  have hfl : f ≠ l := Ne.symm hlf
  cases side <;>
  · unfold LinkWorld.setLeaderFollower LinkWorld.updateFish
    by_cases hjf : j = f
    · subst hjf
      simp [hfl]
    · by_cases hjl : j = l
      · subst hjl
        simp [hfl, hjf]
      · simp [hjf, hjl]

theorem unsetLF_fish (w : LinkWorld) (l f : FishId) (hlf : l ≠ f) (j : FishId) :
    (w.unsetLeaderFollower l f).fish j =
      if j = f then { w.fish f with leaderKoiFish := none }
      else if j = l then
        (if (w.fish l).leftFollower = some f then
          { w.fish l with leftFollower := none }
        else { w.fish l with rightFollower := none })
      else w.fish j := by
  have hfl : f ≠ l := Ne.symm hlf
  unfold LinkWorld.unsetLeaderFollower LinkWorld.updateFish
  by_cases hjf : j = f
  · subst hjf
    simp [hfl]
  · by_cases hjl : j = l
    · subst hjl
      simp [hfl, hjf]
    · simp [hjf, hjl]

theorem setTarget_fish (w : LinkWorld) (i : FishId) (t : TargetRef) (j : FishId) :
    (w.setTarget i t).fish j =
      if j = i then { w.fish j with targetPoint := t } else w.fish j := by
  unfold LinkWorld.setTarget LinkWorld.updateFish
  by_cases hji : j = i <;> simp [hji]

theorem bumpFresh_fish (w : LinkWorld) (j : FishId) :
    w.bumpFresh.fish j = w.fish j := rfl

theorem setLeaderFollower_preserves (w : LinkWorld) (l f : FishId) (side : Side)
    (hInv : SlotInv w) (hlead : (w.fish f).leaderKoiFish = none)
    (hslot : (w.fish l).follower side = none) (hlfne : l ≠ f) :
    SlotInv (w.setLeaderFollower l f side) := by
  cases side <;>
  · simp only [FishLinks.follower] at hslot
    intro a b
    obtain ⟨hab1, hab2⟩ := hInv a b
    obtain ⟨hlb1, hlb2⟩ := hInv l b
    obtain ⟨haf1, haf2⟩ := hInv a f
    obtain ⟨hlf1, hlf2⟩ := hInv l f
    obtain ⟨hfb1, hfb2⟩ := hInv f b
    rw [setLF_fish w l f _ hlfne a, setLF_fish w l f _ hlfne b]
    by_cases haf : a = f <;> by_cases hal : a = l <;> by_cases hbf : b = f <;>
      by_cases hbl : b = l <;>
      simp_all <;> tauto

theorem unsetLeaderFollower_preserves (w : LinkWorld) (l f : FishId)
    (hInv : SlotInv w) (hlead : (w.fish f).leaderKoiFish = some l) :
    SlotInv (w.unsetLeaderFollower l f) := by
  have hlfne : l ≠ f := ((hInv l f).1 hlead).1
  have hxor := ((hInv l f).1 hlead).2
  intro a b
  rw [unsetLF_fish w l f hlfne a, unsetLF_fish w l f hlfne b]
  constructor
  · intro hLd
    by_cases hbf : b = f
    · subst hbf
      rw [if_pos rfl] at hLd
      exact absurd hLd (by simp)
    · rw [if_neg hbf] at hLd
      have hLdOld : (w.fish b).leaderKoiFish = some a := by
        by_cases hbl : b = l
        · subst hbl
          rw [if_pos rfl] at hLd
          by_cases hls : (w.fish b).leftFollower = some f
          · rw [if_pos hls] at hLd
            exact hLd
          · rw [if_neg hls] at hLd
            exact hLd
        · rw [if_neg hbl] at hLd
          exact hLd
      obtain ⟨hne, hxorOld⟩ := (hInv a b).1 hLdOld
      refine ⟨hne, ?_⟩
      by_cases hafq : a = f
      · subst hafq
        rw [if_pos rfl]
        exact hxorOld
      · rw [if_neg hafq]
        by_cases halq : a = l
        · subst halq
          rw [if_pos rfl]
          by_cases hls : (w.fish a).leftFollower = some f
          · rw [if_pos hls]
            rcases hxorOld with ⟨hL, hR⟩ | ⟨hL, hR⟩
            · exact absurd (Option.some.inj (hls.symm.trans hL)).symm hbf
            · right
              exact ⟨by simp, hR⟩
          · rw [if_neg hls]
            rcases hxorOld with ⟨hL, hR⟩ | ⟨hL, hR⟩
            · left
              exact ⟨hL, by simp⟩
            · exfalso
              rcases hxor with ⟨hL2, hR2⟩ | ⟨hL2, hR2⟩
              · exact hls hL2
              · rw [hR2] at hR
                exact hbf (Option.some.inj hR).symm
        · rw [if_neg halq]
          exact hxorOld
  · intro hSl
    by_cases hbf : b = f
    · exfalso
      by_cases hafq : a = f
      · rw [if_pos hafq] at hSl
        have h2 : (w.fish b).leaderKoiFish = some f := (hInv f b).2 hSl
        rw [hbf, hlead] at h2
        exact hlfne (Option.some.inj h2)
      · rw [if_neg hafq] at hSl
        by_cases halq : a = l
        · rw [if_pos halq] at hSl
          by_cases hls : (w.fish l).leftFollower = some f
          · rw [if_pos hls] at hSl
            rcases hSl with hS | hS
            · exact absurd hS (by simp)
            · rw [hbf] at hS
              rcases hxor with ⟨hL2, hR2⟩ | ⟨hL2, hR2⟩
              · exact hR2 hS
              · exact hL2 hls
          · rw [if_neg hls] at hSl
            rcases hSl with hS | hS
            · rw [hbf] at hS
              exact hls hS
            · exact absurd hS (by simp)
        · rw [if_neg halq] at hSl
          have h2 : (w.fish b).leaderKoiFish = some a := (hInv a b).2 hSl
          rw [hbf, hlead] at h2
          exact halq (Option.some.inj h2).symm
    · rw [if_neg hbf]
      have hSlOld : (w.fish a).leftFollower = some b ∨
          (w.fish a).rightFollower = some b := by
        by_cases hafq : a = f
        · subst hafq
          rw [if_pos rfl] at hSl
          exact hSl
        · rw [if_neg hafq] at hSl
          by_cases halq : a = l
          · subst halq
            rw [if_pos rfl] at hSl
            by_cases hls : (w.fish a).leftFollower = some f
            · rw [if_pos hls] at hSl
              rcases hSl with hS | hS
              · exact absurd hS (by simp)
              · exact Or.inr hS
            · rw [if_neg hls] at hSl
              rcases hSl with hS | hS
              · exact Or.inl hS
              · exact absurd hS (by simp)
          · rw [if_neg halq] at hSl
            exact hSl
      have hLdOld : (w.fish b).leaderKoiFish = some a := (hInv a b).2 hSlOld
      by_cases hbl : b = l
      · subst hbl
        rw [if_pos rfl]
        by_cases hls : (w.fish b).leftFollower = some f
        · rw [if_pos hls]
          exact hLdOld
        · rw [if_neg hls]
          exact hLdOld
      · rw [if_neg hbl]
        exact hLdOld

theorem setTarget_preserves (w : LinkWorld) (i : FishId) (t : TargetRef)
    (hInv : SlotInv w) : SlotInv (w.setTarget i t) := by
  intro a b
  obtain ⟨hab1, hab2⟩ := hInv a b
  rw [setTarget_fish w i t a, setTarget_fish w i t b]
  by_cases hai : a = i <;> by_cases hbi : b = i <;> simp_all

theorem bumpFresh_preserves (w : LinkWorld) (hInv : SlotInv w) :
    SlotInv w.bumpFresh := hInv

theorem step_preserves (w : LinkWorld) (op : LinkOp) (hInv : SlotInv w) :
    SlotInv (w.step op) := by
  cases op with
  | pairFromFollow l f side =>
    simp only [LinkWorld.step]
    split_ifs with h
    · exact setLeaderFollower_preserves w l f side hInv h.1 h.2.1 h.2.2
    · exact hInv
  | breakByFood f foodSerial =>
    simp only [LinkWorld.step]
    cases hL : (w.fish f).leaderKoiFish with
    | none => exact setTarget_preserves _ _ _ hInv
    | some l =>
      exact setTarget_preserves _ _ _ (unsetLeaderFollower_preserves w l f hInv hL)
  | breakFollow f =>
    simp only [LinkWorld.step]
    cases hL : (w.fish f).leaderKoiFish with
    | none => exact hInv
    | some l =>
      exact bumpFresh_preserves _
        (setTarget_preserves _ _ _ (unsetLeaderFollower_preserves w l f hInv hL))
  | bareUnset f =>
    simp only [LinkWorld.step]
    cases hL : (w.fish f).leaderKoiFish with
    | none => exact hInv
    | some l => exact unsetLeaderFollower_preserves w l f hInv hL
  | outOfBounds f =>
    exact bumpFresh_preserves _ (setTarget_preserves _ _ _ hInv)
  | standardRetarget f =>
    simp only [LinkWorld.step]
    split_ifs with h
    · exact bumpFresh_preserves _ (setTarget_preserves _ _ _ hInv)
    · exact hInv

theorem initLinkWorld_inv : SlotInv initLinkWorld := by
  intro a b
  simp [initLinkWorld]

theorem foldl_step_preserves (ops : List LinkOp) :
    ∀ w : LinkWorld, SlotInv w → SlotInv (ops.foldl LinkWorld.step w) := by
  induction ops with
  | nil => exact fun w h => h
  | cons op rest ih =>
    intro w h
    exact ih (w.step op) (step_preserves w op h)

/-- Counterexample to C3: pair fish 1 under fish 0's left slot, then let
fish 1 wander out of bounds.  `handleOutOfBounds` replaces the follower's
`targetPoint` with a fresh random point without unpairing, so fish 0 is
still fish 1's leader and fish 1 still occupies the left slot, but fish 0's
left follow point is no longer fish 1's targetPoint — the claimed invariant
fails on this reachable state. -/
theorem leader_follower_targetPoint_refuted :
    ((LinkWorld.run [LinkOp.pairFromFollow 0 1 Side.left,
        LinkOp.outOfBounds 1]).fish 1).leaderKoiFish = some 0 ∧
    ((LinkWorld.run [LinkOp.pairFromFollow 0 1 Side.left,
        LinkOp.outOfBounds 1]).fish 0).leftFollower = some 1 ∧
    ¬((LinkWorld.run [LinkOp.pairFromFollow 0 1 Side.left,
        LinkOp.outOfBounds 1]).fish 1).targetPoint =
      TargetRef.followPt 0 Side.left := by
  refine ⟨rfl, rfl, ?_⟩
  intro h
  simp [LinkWorld.run, LinkWorld.step, LinkWorld.setLeaderFollower,
    LinkWorld.setTarget, LinkWorld.bumpFresh, LinkWorld.updateFish,
    initLinkWorld, FishLinks.follower] at h

/-- Amended C3: on every state reachable from the initial population by the
source's link operations, leader/follower pairing is slot-symmetric —
whenever A is B's leaderKoiFish, B occupies exactly one of A's two follower
slots, and a slot occupant's leader reference points back at the slot owner
— and `unsetLeaderFollower` clears the follower's leader reference and the
leader's occupied slot in the same call, never leaving a one-sided link.
(The further claim that the follower's targetPoint always aliases the
leader's follow point for that slot fails: out-of-bounds recovery retargets
a still-paired follower.) -/
theorem leader_follower_symmetry :
    (∀ ops : List LinkOp, SlotInv (LinkWorld.run ops)) ∧
    (∀ (w : LinkWorld) (l f : FishId), SlotInv w →
      (w.fish f).leaderKoiFish = some l →
      ((w.unsetLeaderFollower l f).fish f).leaderKoiFish = none ∧
      ¬((w.unsetLeaderFollower l f).fish l).leftFollower = some f ∧
      ¬((w.unsetLeaderFollower l f).fish l).rightFollower = some f) := by
  constructor
  · intro ops
    exact foldl_step_preserves ops initLinkWorld initLinkWorld_inv
  · intro w l f hInv hlead
    have hlfne : l ≠ f := ((hInv l f).1 hlead).1
    have hxor := ((hInv l f).1 hlead).2
    refine ⟨?_, ?_, ?_⟩
    · rw [unsetLF_fish w l f hlfne f, if_pos rfl]
    · rw [unsetLF_fish w l f hlfne l, if_neg hlfne, if_pos rfl]
      rcases hxor with ⟨hL, hR⟩ | ⟨hL, hR⟩
      · rw [if_pos hL]
        simp
      · rw [if_neg hL]
        simpa using hL
    · rw [unsetLF_fish w l f hlfne l, if_neg hlfne, if_pos rfl]
      rcases hxor with ⟨hL, hR⟩ | ⟨hL, hR⟩
      · rw [if_pos hL]
        simpa using hR
      · rw [if_neg hL]
        simp

/-- Witness for the amended C3: the state reached by pairing fish 1 into
fish 0's left slot satisfies the invariant (by the theorem's first part),
and unpairing from it clears both sides at once. -/
theorem leader_follower_symmetry_witness :
    (((LinkWorld.run [LinkOp.pairFromFollow 0 1 Side.left]).unsetLeaderFollower
        0 1).fish 1).leaderKoiFish = none ∧
    ¬(((LinkWorld.run [LinkOp.pairFromFollow 0 1 Side.left]).unsetLeaderFollower
        0 1).fish 0).leftFollower = some 1 ∧
    ¬(((LinkWorld.run [LinkOp.pairFromFollow 0 1 Side.left]).unsetLeaderFollower
        0 1).fish 0).rightFollower = some 1 :=
  leader_follower_symmetry.2 (LinkWorld.run [LinkOp.pairFromFollow 0 1 Side.left])
    0 1 (leader_follower_symmetry.1 [LinkOp.pairFromFollow 0 1 Side.left])
    (by rfl)

/- ### Claim C4: KoiFish food-seeking
(src/objects/koifish.ts: update lines 622-671, checkAndSetFoodBehavior lines
397-468, checkAndSetFollowBehavior lines 471-580, standardBehavior lines
593-617, handleOutOfBounds lines 209-215; src/objectManager.ts
getNearbyObjects lines 490-511 and the location map built by
updateAllObjects).

Single-fish embedding: the updated fish's own fields are tracked exactly;
other fish are read-only summaries (their only mutation by this fish's
update — filling a chosen leader's follower slot — is covered by the C3
transition model).  Lanterns are omitted from the environment: both
`getNearbyObjects` calls filter by `instanceof Food`/`instanceof KoiFish`,
so lantern entries in the location map are never returned to this fish. -/

noncomputable section

/-- `Vector.UP`. -/
def Vec.UP : Vec := ⟨0, 1⟩

/-- `Vector.getAngle()`: degrees from straight up, in [0, 360), computed as
`atan2(dx, dy)`. -/
def Vec.getAngle (v : Vec) : ℝ :=
  let degrees := atan2 v.dx v.dy * (180 / Real.pi)
  if degrees < 0 then degrees + 360 else degrees

/-- `Point.rotateAround(pointB, angleDeg)` (clockwise, per the source's sign
adjustment). -/
def Pt.rotateAround (p pivot : Pt) (angleDeg : ℝ) : Pt :=
  let angleRad := angleDeg * Real.pi / 180
  let x := p.x - pivot.x
  let y := p.y - pivot.y
  ⟨x * Real.cos angleRad + y * Real.sin angleRad + pivot.x,
   -x * Real.sin angleRad + y * Real.cos angleRad + pivot.y⟩

/-- A `Food` as the fish update reads it: identity, position and the shared
`isEaten` flag (the decay-particle state does not affect fish behavior). -/
structure Food4 where
  id : ℕ
  position : Pt
  isEaten : Bool

/-- Read-only summary of another `KoiFish`, as read by the pairing and
follow branches (slot availability and the two follow-point objects'
current coordinates). -/
structure OtherFish where
  id : ℕ
  position : Pt
  size : ℝ
  direction : Vec
  speed : ℝ
  leftFree : Bool
  rightFree : Bool
  leftFollowPoint : Pt
  rightFollowPoint : Pt

/-- `getAvailableFollowPositions()` of a potential leader. -/
def OtherFish.availableFollowPositions (pl : OtherFish) : List Side :=
  (if pl.leftFree then [Side.left] else []) ++
    (if pl.rightFree then [Side.right] else [])

/-- The mutable fields of the fish being updated. -/
structure KoiState where
  id : ℕ
  size : ℝ
  position : Pt
  direction : Vec
  baseSpeed : ℝ
  speed : ℝ
  previousSpeed : ℝ
  turnMultiplier : ℝ
  targetPoint : Pt
  lastUpdateTime : ℝ
  desiredFood : Option ℕ
  leaderKoiFish : Option ℕ
  followTime : ℝ
  leftFollowAngle : ℝ
  rightFollowAngle : ℝ
  leftFollowPoint : Pt
  rightFollowPoint : Pt
  finSpeedFactor : ℝ
  tailSpeedFactor : ℝ

/-- The environment one fish update reads: the surface, the other fish and
the food collection (`foodMap` plus the frame's location map, which indexes
exactly these by their current cell), and the `fish.followDistance`
configuration value. -/
structure Env where
  canvas : Canvas
  fishOthers : List OtherFish
  foods : List Food4
  followDistance : ℝ

/-- The grid dimensions `setupCanvas` derives from the surface. -/
def envDims (cv : Canvas) : GridDims :=
  ⟨⌈cv.width / 50⌉, ⌈cv.height / 50⌉⟩

/-- `getCellIndex` on a real-coordinate point. -/
def getCellIndexR (dims : GridDims) (p : Pt) : ℤ :=
  ⌊p.y / 50⌋ * dims.numCellsX + ⌊p.x / 50⌋

/-- The random draws one fish update may consume. -/
structure KoiOracle where
  /-- `handleOutOfBounds`: which edge `getRandomEdgePoint` picks. -/
  edgeChoice : Fin 4
  /-- `handleOutOfBounds`: the edge-point coordinate draw, in [0, 1). -/
  rEdge : ℝ
  /-- `handleOutOfBounds`: the `Point.getRandomPoint(0.8)` target. -/
  oobTarget : Pt
  /-- `getRandomItem(potentialLeaders)` pick. -/
  leaderPick : ℕ
  /-- `getRandomItem(availableFollowPositions)` pick. -/
  sidePick : ℕ
  /-- the candidate points drawn by `setNewRandomTargetPoint`'s loop. -/
  retargets : List Pt

/-- `getRandomItem(items)`: an oracle-chosen element (`none` on the empty
list, where the source throws). -/
def pickItem {α : Type} (items : List α) (o : ℕ) : Option α :=
  items.get? (o % items.length)

/-- `KoiFish.setNewRandomTargetPoint`: keep drawing random points until one
is at least 300 units away; the accepted point is the first such candidate
(`none` models a never-terminating loop / exhausted oracle). -/
def setNewRandomTargetPoint (pos : Pt) (cands : List Pt) : Option Pt :=
  cands.find? (fun p => decide (¬pos.getDistanceTo p < 300))

/-- `KoiFish.handleOutOfBounds`: teleport to a random edge point
`0.8 * |canvasExitDistance|` units outside, pick a fresh random target, and
aim at it. -/
def handleOutOfBounds (cv : Canvas) (fish : KoiState) (o : KoiOracle) :
    Option KoiState :=
  let newPosition := getRandomEdgePoint cv (0.8 * |KoiFish.canvasExitDistance|)
    o.edgeChoice o.rEdge
  let newTarget := o.oobTarget
  match (newPosition.getVectorTo newTarget).normalized with
  | none => none
  | some newDirection =>
      some { fish with
        position := newPosition
        targetPoint := newTarget
        direction := newDirection }

/-- The foods `getNearbyObjects(this, Food, range)` returns: walk the
adjacent cell indices of the fish's cell and collect, per cell, the food
objects the location map registered there (every food is registered at the
cell index of its position), excluding the requesting object's id. -/
def getNearbyFoods (cv : Canvas) (foods : List Food4) (fish : KoiState)
    (range : ℤ) : List Food4 :=
  let cellIndex := getCellIndexR (envDims cv) fish.position
  let adjacentIndices := getAdjacentIndices (envDims cv) cellIndex range
  adjacentIndices.flatMap (fun adjacentIndex =>
    foods.filter (fun fd =>
      decide (getCellIndexR (envDims cv) fd.position = adjacentIndex ∧
        fd.id ≠ fish.id)))

/-- The other fish `getNearbyObjects(this, KoiFish, range)` returns. -/
def getNearbyKoi (cv : Canvas) (others : List OtherFish) (fish : KoiState)
    (range : ℤ) : List OtherFish :=
  let cellIndex := getCellIndexR (envDims cv) fish.position
  let adjacentIndices := getAdjacentIndices (envDims cv) cellIndex range
  adjacentIndices.flatMap (fun adjacentIndex =>
    others.filter (fun pl =>
      decide (getCellIndexR (envDims cv) pl.position = adjacentIndex ∧
        pl.id ≠ fish.id)))

/-- One step of the `nearbyFoodList.forEach` closest-food scan: skip eaten
food, otherwise keep whichever of the accumulator and this food is closer
(`none` is the initial `undefined`/`Infinity` accumulator). -/
def scanStep (pos : Pt) (acc : Option (Food4 × ℝ)) (fd : Food4) :
    Option (Food4 × ℝ) :=
  if fd.isEaten then acc
  else
    let d := pos.getDistanceTo fd.position
    match acc with
    | none => some (fd, d)
    | some (best, dbest) => if d < dbest then some (fd, d) else some (best, dbest)

/-- The whole closest-food scan. -/
def closestFoodScan (pos : Pt) (l : List Food4) : Option (Food4 × ℝ) :=
  l.foldl (scanStep pos) none

/-- `Food.onEaten()` as seen through the food map: the shared `isEaten` flag
of the food with this id flips (the decay timer and eventual removal happen
outside this update). -/
def markEaten (foods : List Food4) (fid : ℕ) : List Food4 :=
  foods.map (fun fd => if fd.id = fid then { fd with isEaten := true } else fd)

/-- The first block of `KoiFish.checkAndSetFoodBehavior()`: if a desired
food is within eating distance or no longer exists in the food map, eat it
(flip its shared `isEaten` flag) and clear the reference. -/
def foodEatPhase (env : Env) (fish : KoiState) : KoiState × List Food4 :=
  match fish.desiredFood with
  | none => (fish, env.foods)
  | some fid =>
      match env.foods.find? (fun fd : Food4 => decide (fd.id = fid)) with
      | none => ({ fish with desiredFood := none }, env.foods)
      | some fd =>
          if fish.position.getDistanceTo fd.position < 20 then
            ({ fish with desiredFood := none }, markEaten env.foods fid)
          else (fish, env.foods)

/-- The remainder of `checkAndSetFoodBehavior()`: scan the grid-range-5
neighborhood for the closest uneaten food; on a hit, break any leader
pairing, retarget onto the food and set the speed/turn tier; `none` models
the normalization error thrown when the fish sits exactly on the chosen
food. -/
def foodScanPhase (env : Env) (fish1 : KoiState) (foods1 : List Food4) :
    Option (KoiState × List Food4) :=
  let nearbyFoodList := getNearbyFoods env.canvas foods1 fish1 5
  match closestFoodScan fish1.position nearbyFoodList with
  | some (closest, _) =>
      let fish2 :=
        match fish1.leaderKoiFish with
        | some _ => { fish1 with leaderKoiFish := none }
        | none => fish1
      let fish3 := { fish2 with
        desiredFood := some closest.id
        targetPoint := closest.position }
      let targetVector := fish3.position.getVectorTo fish3.targetPoint
      match targetVector.normalized with
      | none => none
      | some targetDirection =>
          let targetDistance := targetVector.getMagnitude
          let desiredAngleChange :=
            Vec.signedAngleBetween fish3.direction targetDirection
          let fish4 :=
            if targetDistance < 50 ∧ |desiredAngleChange| > 30 then
              { fish3 with speed := fish3.baseSpeed * (1 / 2), turnMultiplier := 4 }
            else if |desiredAngleChange| < 30 then
              { fish3 with speed := fish3.baseSpeed * 5, turnMultiplier := 1 }
            else
              { fish3 with speed := fish3.baseSpeed * 4, turnMultiplier := 2 }
          some ({ fish4 with tailSpeedFactor := 2, finSpeedFactor := 2 }, foods1)
  | none =>
      some ({ fish1 with tailSpeedFactor := 1, finSpeedFactor := 1 }, foods1)

/-- `KoiFish.checkAndSetFoodBehavior()`: the eat block followed by the scan
block. -/
def checkAndSetFoodBehavior (env : Env) (fish : KoiState) :
    Option (KoiState × List Food4) :=
  let eat := foodEatPhase env fish
  foodScanPhase env eat.1 eat.2

/-- `KoiFish.checkAndSetFollowBehavior()`. -/
def checkAndSetFollowBehavior (env : Env) (fish : KoiState) (now : ℝ)
    (o : KoiOracle) : Option KoiState :=
  if fish.desiredFood ≠ none ∧ fish.leaderKoiFish ≠ none then
    some { fish with leaderKoiFish := none }
  else
    match fish.leaderKoiFish with
    | none =>
        let nearbyKoiFishList := getNearbyKoi env.canvas env.fishOthers fish 1
        let potentialLeaders :=
          (((nearbyKoiFishList.filter (fun pl =>
              decide (pl.size > fish.size * (11 / 10)))).filter (fun pl =>
            decide (pl.availableFollowPositions ≠ []))).filter (fun pl =>
          decide (|Vec.signedAngleBetween fish.direction pl.direction| < 60))).filter
            (fun pl =>
          decide (|Vec.signedAngleBetween fish.direction
            (fish.position.getVectorTo pl.position)| < 60))
        match potentialLeaders with
        | [] => some fish
        | pl0 :: rest =>
            match pickItem (pl0 :: rest) o.leaderPick with
            | none => none
            | some newLeader =>
                match pickItem newLeader.availableFollowPositions o.sidePick with
                | none => none
                | some followSide =>
                    some { fish with
                      leaderKoiFish := some newLeader.id
                      targetPoint :=
                        match followSide with
                        | Side.left => newLeader.leftFollowPoint
                        | Side.right => newLeader.rightFollowPoint
                      followTime := now }
    | some lid =>
        if getElapsedSeconds fish.followTime now > 180 then
          match setNewRandomTargetPoint fish.position o.retargets with
          | none => none
          | some pt =>
              some { fish with leaderKoiFish := none, targetPoint := pt }
        else
          let distanceToLeader := fish.position.getDistanceTo fish.targetPoint
          if distanceToLeader > 100 then
            match setNewRandomTargetPoint fish.position o.retargets with
            | none => none
            | some pt =>
                some { fish with
                  speed := fish.baseSpeed
                  leaderKoiFish := none
                  targetPoint := pt }
          else
            match env.fishOthers.find? (fun pl : OtherFish => decide (pl.id = lid)) with
            | none => none
            | some leader =>
                let vectorToTargetPoint :=
                  fish.position.getVectorTo fish.targetPoint
                let angleToTargetPoint :=
                  Vec.signedAngleBetween fish.direction vectorToTargetPoint
                let distanceToTargetPoint := vectorToTargetPoint.getMagnitude
                if |angleToTargetPoint| < 30 ∧ distanceToTargetPoint > 20 then
                  some { fish with speed := (12 / 10) * leader.speed }
                else if |angleToTargetPoint| > 90 ∧ distanceToTargetPoint < 50 then
                  some { fish with speed := (4 / 10) * leader.speed }
                else if |Vec.signedAngleBetween fish.direction leader.direction| < 30 ∧
                    distanceToTargetPoint < 20 then
                  some { fish with speed := leader.speed, turnMultiplier := 1 / 2 }
                else some fish

/-- `KoiFish.standardBehavior()`.  Note the source computes `targetVector`
before any re-pick, so the normalization (and the turn-multiplier shaping)
still uses the old target. -/
def standardBehavior (cv : Canvas) (fish : KoiState) (o : KoiOracle) :
    Option KoiState :=
  let targetVector := fish.position.getVectorTo fish.targetPoint
  let repicked :=
    if targetVector.getMagnitude < 50 then
      match setNewRandomTargetPoint fish.position o.retargets with
      | none => none
      | some pt => some { fish with targetPoint := pt }
    else some fish
  match repicked with
  | none => none
  | some fish1 =>
      match targetVector.normalized with
      | none => none
      | some targetDirection =>
          let targetDistance := targetVector.getMagnitude
          let desiredAngleChange :=
            Vec.signedAngleBetween fish1.direction targetDirection
          let distanceProportion := targetDistance /
            Real.sqrt (cv.width * cv.width + cv.height * cv.height)
          let turnMultiplier1 :=
            fish1.turnMultiplier * max (1 - distanceProportion) (1 / 2)
          let turnMultiplier2 :=
            if distanceProportion > 1 / 10 ∧ |desiredAngleChange| < 45 then
              turnMultiplier1 * (3 / 10)
            else turnMultiplier1
          some { fish1 with turnMultiplier := turnMultiplier2 }

/-- `KoiFish.smoothenSpeedChange()`: the new speed after rate limiting. -/
def smoothenSpeedChange (previousSpeed speed elapsed : ℝ) : ℝ :=
  let maxSpeedChange := KoiFish.maxSpeedChangePerSecond * elapsed
  let speedDifference := speed - previousSpeed
  if |speedDifference| > maxSpeedChange then
    previousSpeed + jsSign speedDifference * maxSpeedChange
  else speed

/-- `KoiFish.updateFollowPoints()`: recompute both follow points as rotated
offsets from the fish's position (mutating the shared Point objects). -/
def updateFollowPoints (env : Env) (fish : KoiState) : KoiState :=
  { fish with
    leftFollowPoint :=
      (fish.position.applyVector
        ((Vec.UP.rotateVector fish.leftFollowAngle).scale
          env.followDistance)).rotateAround fish.position fish.direction.getAngle
    rightFollowPoint :=
      (fish.position.applyVector
        ((Vec.UP.rotateVector fish.rightFollowAngle).scale
          env.followDistance)).rotateAround fish.position fish.direction.getAngle }

/-- `KoiFish.update()`.  Returns the updated fish and food collection
(`none` models a thrown error propagating out of the update).  On the
out-of-bounds branch the source returns early, before `lastUpdateTime` is
stamped. -/
def KoiFish.update (env : Env) (fish : KoiState) (now : ℝ) (o : KoiOracle) :
    Option (KoiState × List Food4) :=
  let fish0 := { fish with
    previousSpeed := fish.speed
    speed := fish.baseSpeed
    turnMultiplier := 1 }
  if getDistanceToCanvasBorder env.canvas fish0.position <
      KoiFish.canvasExitDistance then
    (handleOutOfBounds env.canvas fish0 o).map (fun f1 => (f1, env.foods))
  else
    match checkAndSetFoodBehavior env fish0 with
    | none => none
    | some (fish1, foods1) =>
        let env1 := { env with foods := foods1 }
        match (if fish1.desiredFood = none then
            checkAndSetFollowBehavior env1 fish1 now o
          else some fish1) with
        | none => none
        | some fish2 =>
            match (if fish2.desiredFood = none ∧ fish2.leaderKoiFish = none then
                standardBehavior env.canvas fish2 o
              else some fish2) with
            | none => none
            | some fish3 =>
                let fish4 := { fish3 with
                  direction := smoothenDirectionChange
                    ⟨fish3.position, fish3.targetPoint, fish3.direction,
                      fish3.turnMultiplier, fish3.lastUpdateTime⟩ now }
                let fish5 := { fish4 with
                  speed := smoothenSpeedChange fish4.previousSpeed fish4.speed
                    (getElapsedSeconds fish4.lastUpdateTime now) }
                let fish6 := { fish5 with
                  position := fish5.position.applyVector
                    (fish5.direction.scale
                      (fish5.speed * getElapsedSeconds fish5.lastUpdateTime now)) }
                let fish7 := updateFollowPoints env1 fish6
                some ({ fish7 with lastUpdateTime := now }, foods1)

end

theorem Vec.normalized_of_mag_ne_zero (v : Vec) (h : v.getMagnitude ≠ 0) :
    v.normalized = some ⟨v.dx / v.getMagnitude, v.dy / v.getMagnitude⟩ := by
  unfold Vec.normalized Vec.normalize Vec.getMagnitude
  unfold Vec.getMagnitude at h
  rw [if_neg h]
  rfl

theorem Pt.getDistanceTo_eq_mag (p q : Pt) :
    p.getDistanceTo q = (p.getVectorTo q).getMagnitude := rfl

theorem cell_coord_bound (w x : ℝ) (h0 : 0 ≤ x) (h1 : x < w) :
    0 ≤ ⌊x / 50⌋ ∧ ⌊x / 50⌋ < ⌈w / 50⌉ := by
  constructor
  · exact Int.floor_nonneg.mpr (by positivity)
  · have hle : (⌊x / 50⌋ : ℝ) ≤ x / 50 := Int.floor_le _
    have hlt : x / 50 < w / 50 := by linarith
    have hce : (w / 50 : ℝ) ≤ (⌈w / 50⌉ : ℝ) := Int.le_ceil _
    exact_mod_cast lt_of_le_of_lt hle (lt_of_lt_of_le hlt hce)

theorem mem_getNearbyFoods (cv : Canvas) (foods : List Food4) (fish : KoiState)
    (range : ℤ) (fd : Food4) :
    fd ∈ getNearbyFoods cv foods fish range ↔
      fd ∈ foods ∧ fd.id ≠ fish.id ∧
        getCellIndexR (envDims cv) fd.position ∈
          getAdjacentIndices (envDims cv)
            (getCellIndexR (envDims cv) fish.position) range := by
  unfold getNearbyFoods
  rw [List.mem_flatMap]
  constructor
  · rintro ⟨idx, hidx, hmem⟩
    rw [List.mem_filter] at hmem
    obtain ⟨hmem, hdec⟩ := hmem
    rw [decide_eq_true_eq] at hdec
    exact ⟨hmem, hdec.2, hdec.1 ▸ hidx⟩
  · rintro ⟨hmem, hid, hadj⟩
    refine ⟨getCellIndexR (envDims cv) fd.position, hadj, ?_⟩
    rw [List.mem_filter, decide_eq_true_eq]
    exact ⟨hmem, rfl, hid⟩

theorem scan_keeps (pos : Pt) (F : Food4) (dF : ℝ) :
    ∀ l : List Food4,
      (∀ G ∈ l, G.isEaten = false → dF ≤ pos.getDistanceTo G.position) →
      List.foldl (scanStep pos) (some (F, dF)) l = some (F, dF) := by
  intro l
  induction l with
  | nil => intro _; rfl
  | cons G rest ih =>
    intro h
    rw [List.foldl_cons]
    have hstep : scanStep pos (some (F, dF)) G = some (F, dF) := by
      unfold scanStep
      by_cases hG : G.isEaten
      · rw [if_pos hG]
      · rw [if_neg hG]
        simp only
        rw [if_neg (not_lt.mpr (h G (List.mem_cons_self G rest)
          (Bool.eq_false_iff.mpr hG)))]
    rw [hstep]
    exact ih (fun G2 hG2 hGe => h G2 (List.mem_cons_of_mem G hG2) hGe)

theorem scan_finds_min (pos : Pt) (F : Food4) (hFe : F.isEaten = false) :
    ∀ l : List Food4, F ∈ l →
      (∀ G ∈ l, G.isEaten = false → G ≠ F →
        pos.getDistanceTo F.position < pos.getDistanceTo G.position) →
      ∀ acc : Option (Food4 × ℝ),
        (∀ B d, acc = some (B, d) → pos.getDistanceTo F.position < d) →
        List.foldl (scanStep pos) acc l =
          some (F, pos.getDistanceTo F.position) := by
  intro l
  induction l with
  | nil =>
    intro hF
    exact absurd hF (List.not_mem_nil F)
  | cons G rest ih =>
    intro hF hmin acc hacc
    rw [List.foldl_cons]
    by_cases hGF : G = F
    · subst hGF
      have hstep : scanStep pos acc G = some (G, pos.getDistanceTo G.position) := by
        unfold scanStep
        rw [if_neg (by rw [hFe]; exact Bool.false_ne_true)]
        cases hc : acc with
        | none => rfl
        | some best =>
          simp only
          rw [if_pos (hacc best.1 best.2 (by rw [hc]))]
      rw [hstep]
      exact scan_keeps pos G _ rest (fun G2 hG2 hG2e => by
        by_cases hG2F : G2 = G
        · rw [hG2F]
        · exact le_of_lt (hmin G2 (List.mem_cons_of_mem G hG2) hG2e hG2F))
    · have hFrest : F ∈ rest := by
        rcases List.mem_cons.mp hF with h | h
        · exact absurd h.symm hGF
        · exact h
      apply ih hFrest
        (fun G2 hG2 hG2e hG2F => hmin G2 (List.mem_cons_of_mem G hG2) hG2e hG2F)
      intro B d hBd
      unfold scanStep at hBd
      by_cases hG : G.isEaten
      · rw [if_pos hG] at hBd
        exact hacc B d hBd
      · rw [if_neg hG] at hBd
        simp only at hBd
        cases hc : acc with
        | none =>
          rw [hc] at hBd
          simp only at hBd
          obtain ⟨hB, hd⟩ := Prod.mk.injEq _ _ _ _ ▸ (Option.some.injEq _ _ ▸ hBd)
          subst hd
          subst hB
          exact hmin G (List.mem_cons_self G rest) (Bool.eq_false_iff.mpr hG) hGF
        | some best =>
          rw [hc] at hBd
          simp only at hBd
          by_cases hlt : pos.getDistanceTo G.position < best.2
          · rw [if_pos hlt] at hBd
            obtain ⟨hB, hd⟩ := Prod.mk.injEq _ _ _ _ ▸ (Option.some.injEq _ _ ▸ hBd)
            subst hd
            subst hB
            exact hmin G (List.mem_cons_self G rest) (Bool.eq_false_iff.mpr hG) hGF
          · rw [if_neg hlt] at hBd
            obtain ⟨hB, hd⟩ := Prod.mk.injEq _ _ _ _ ▸ (Option.some.injEq _ _ ▸ hBd)
            subst hd
            subst hB
            exact hacc best.1 best.2 (by rw [hc])

theorem markEaten_map_id (foods : List Food4) (fid : ℕ) :
    (markEaten foods fid).map Food4.id = foods.map Food4.id := by
  unfold markEaten
  rw [List.map_map]
  apply List.map_congr_left
  intro fd _
  by_cases h : fd.id = fid
  · simp [h]
  · simp [h]

theorem mem_markEaten_of_ne (foods : List Food4) (fid : ℕ) (fd : Food4)
    (hmem : fd ∈ foods) (hne : fd.id ≠ fid) : fd ∈ markEaten foods fid := by
  unfold markEaten
  rw [List.mem_map]
  exact ⟨fd, hmem, by rw [if_neg hne]⟩

theorem markEaten_uneaten_source (foods : List Food4) (fid : ℕ) (fd : Food4)
    (hmem : fd ∈ markEaten foods fid) (hfe : fd.isEaten = false) :
    fd ∈ foods ∧ fd.id ≠ fid := by
  unfold markEaten at hmem
  rw [List.mem_map] at hmem
  obtain ⟨src, hsrc, heq⟩ := hmem
  by_cases h : src.id = fid
  · rw [if_pos h] at heq
    rw [← heq] at hfe
    exact absurd hfe (by simp)
  · rw [if_neg h] at heq
    subst heq
    exact ⟨hsrc, h⟩

theorem nodup_id_unique (foods : List Food4)
    (hids : (foods.map Food4.id).Nodup) (a b : Food4) (ha : a ∈ foods)
    (hb : b ∈ foods) (hab : a.id = b.id) : a = b := by
  have := List.inj_on_of_nodup_map hids
  exact this ha hb hab

theorem inCanvas_distBorder_nonneg (cv : Canvas) (p : Pt) (h0x : 0 ≤ p.x)
    (h1x : p.x ≤ cv.width) (h0y : 0 ≤ p.y) (h1y : p.y ≤ cv.height) :
    0 ≤ getDistanceToCanvasBorder cv p := by
  unfold getDistanceToCanvasBorder
  rw [if_neg (by push_neg; exact ⟨h0x, h1x, h0y, h1y⟩)]
  exact abs_nonneg _

theorem foodEatPhase_spec (env : Env) (fish : KoiState) (F : Food4)
    (hids : (env.foods.map Food4.id).Nodup)
    (hFmem : F ∈ env.foods) (hFe : F.isEaten = false)
    (heat : ¬(fish.desiredFood = some F.id ∧
      fish.position.getDistanceTo F.position < 20)) :
    (foodEatPhase env fish).1.position = fish.position ∧
    (foodEatPhase env fish).1.id = fish.id ∧
    F ∈ (foodEatPhase env fish).2 ∧
    ((foodEatPhase env fish).2.map Food4.id).Nodup ∧
    (∀ G ∈ (foodEatPhase env fish).2, G.isEaten = false → G ∈ env.foods) := by
  unfold foodEatPhase
  cases hdf : fish.desiredFood with
  | none => exact ⟨rfl, rfl, hFmem, hids, fun G hG _ => hG⟩
  | some fid =>
    dsimp only
    cases hfind : env.foods.find? (fun fd : Food4 => decide (fd.id = fid)) with
    | none => exact ⟨rfl, rfl, hFmem, hids, fun G hG _ => hG⟩
    | some fd =>
      dsimp only
      have hfdid : fd.id = fid := by
        have := List.find?_some hfind
        rwa [decide_eq_true_eq] at this
      have hfdmem : fd ∈ env.foods := List.mem_of_find?_eq_some hfind
      by_cases hdist : fish.position.getDistanceTo fd.position < 20
      · rw [if_pos hdist]
        have hFne : F.id ≠ fid := by
          intro hc
          have hfdF : fd = F := nodup_id_unique env.foods hids fd F hfdmem hFmem
            (by rw [hfdid, hc])
          apply heat
          rw [hdf, hc]
          rw [hfdF] at hdist
          exact ⟨rfl, hdist⟩
        refine ⟨rfl, rfl, mem_markEaten_of_ne env.foods fid F hFmem hFne, ?_, ?_⟩
        · rw [markEaten_map_id]
          exact hids
        · intro G hG hGe
          exact (markEaten_uneaten_source env.foods fid G hG hGe).1
      · rw [if_neg hdist]
        exact ⟨rfl, rfl, hFmem, hids, fun G hG _ => hG⟩

theorem foodScanPhase_spec (env : Env) (fish1 : KoiState) (foods1 : List Food4)
    (F : Food4) (hFmem : F ∈ foods1) (hFe : F.isEaten = false)
    (hFid : F.id ≠ fish1.id)
    (hFadj : getCellIndexR (envDims env.canvas) F.position ∈
      getAdjacentIndices (envDims env.canvas)
        (getCellIndexR (envDims env.canvas) fish1.position) 5)
    (hnear : ∀ G ∈ foods1, G.isEaten = false → G ≠ F →
      getCellIndexR (envDims env.canvas) G.position ∈
        getAdjacentIndices (envDims env.canvas)
          (getCellIndexR (envDims env.canvas) fish1.position) 5 →
      fish1.position.getDistanceTo F.position <
        fish1.position.getDistanceTo G.position)
    (hdpos : 0 < fish1.position.getDistanceTo F.position) :
    ∃ r, foodScanPhase env fish1 foods1 = some (r, foods1) ∧
      r.targetPoint = F.position ∧ r.desiredFood = some F.id ∧
      r.leaderKoiFish = none := by
  have hFnear : F ∈ getNearbyFoods env.canvas foods1 fish1 5 :=
    (mem_getNearbyFoods env.canvas foods1 fish1 5 F).mpr ⟨hFmem, hFid, hFadj⟩
  have hscan : closestFoodScan fish1.position
      (getNearbyFoods env.canvas foods1 fish1 5) =
      some (F, fish1.position.getDistanceTo F.position) := by
    apply scan_finds_min fish1.position F hFe _ hFnear
    · intro G hG hGe hGF
      obtain ⟨hGmem, _, hGadj⟩ := (mem_getNearbyFoods env.canvas foods1 fish1 5 G).mp hG
      exact hnear G hGmem hGe hGF hGadj
    · intro B d hBd
      exact absurd hBd (by simp)
  have hmagpos : 0 < (fish1.position.getVectorTo F.position).getMagnitude := by
    rw [← Pt.getDistanceTo_eq_mag]
    exact hdpos
  cases hld : fish1.leaderKoiFish with
  | none =>
    have hnorm := Vec.normalized_of_mag_ne_zero
      (fish1.position.getVectorTo F.position) (ne_of_gt hmagpos)
    simp only [foodScanPhase, hscan, hld, hnorm]
    refine ⟨_, rfl, ?_, ?_, ?_⟩ <;>
      simp [apply_ite KoiState.targetPoint, apply_ite KoiState.desiredFood,
        apply_ite KoiState.leaderKoiFish]
  | some lid =>
    have hnorm := Vec.normalized_of_mag_ne_zero
      (fish1.position.getVectorTo F.position) (ne_of_gt hmagpos)
    simp only [foodScanPhase, hscan, hld, hnorm]
    refine ⟨_, rfl, ?_, ?_, ?_⟩ <;>
      simp [apply_ite KoiState.targetPoint, apply_ite KoiState.desiredFood,
        apply_ite KoiState.leaderKoiFish]

theorem food_cell_in_adjacency (cv : Canvas) (pf pF : Pt)
    (hx0 : 0 ≤ pf.x) (hx1 : pf.x < cv.width)
    (hy0 : 0 ≤ pf.y) (hy1 : pf.y < cv.height)
    (hfx0 : 0 ≤ pF.x) (hfx1 : pF.x < cv.width)
    (hfy0 : 0 ≤ pF.y) (hfy1 : pF.y < cv.height)
    (hcx : |⌊pF.x / 50⌋ - ⌊pf.x / 50⌋| ≤ 5)
    (hcy : |⌊pF.y / 50⌋ - ⌊pf.y / 50⌋| ≤ 5) :
    getCellIndexR (envDims cv) pF ∈
      getAdjacentIndices (envDims cv) (getCellIndexR (envDims cv) pf) 5 := by
  obtain ⟨hcx0, hcx1⟩ := cell_coord_bound cv.width pf.x hx0 hx1
  obtain ⟨hcy0, hcy1⟩ := cell_coord_bound cv.height pf.y hy0 hy1
  obtain ⟨hax0, hax1⟩ := cell_coord_bound cv.width pF.x hfx0 hfx1
  obtain ⟨hay0, hay1⟩ := cell_coord_bound cv.height pF.y hfy0 hfy1
  obtain ⟨hmod, hdiv⟩ := tmod_ediv_decompose (envDims cv).numCellsX
    ⌊pf.x / 50⌋ ⌊pf.y / 50⌋ hcx0 hcx1 hcy0
  unfold getCellIndexR getAdjacentIndices
  rw [hmod, hdiv]
  rw [mem_adjacentOf_iff _ _ _ _ _ (by norm_num)]
  exact ⟨⌊pF.x / 50⌋, ⌊pF.y / 50⌋, ⟨hax0, hax1⟩, ⟨hay0, hay1⟩, hcx, hcy, rfl⟩

/-- Counterexample hook and main C4 machinery: a single `update()` call on a
fish with an uneaten nearest food in scan range retargets onto it. -/
theorem koifish_update_targets_nearest_food
    (env : Env) (fish : KoiState) (F : Food4) (now : ℝ) (o : KoiOracle)
    (hids : (env.foods.map Food4.id).Nodup)
    (hFmem : F ∈ env.foods) (hFe : F.isEaten = false) (hFid : F.id ≠ fish.id)
    (hx0 : 0 ≤ fish.position.x) (hx1 : fish.position.x < env.canvas.width)
    (hy0 : 0 ≤ fish.position.y) (hy1 : fish.position.y < env.canvas.height)
    (hfx0 : 0 ≤ F.position.x) (hfx1 : F.position.x < env.canvas.width)
    (hfy0 : 0 ≤ F.position.y) (hfy1 : F.position.y < env.canvas.height)
    (hchebx : |⌊F.position.x / 50⌋ - ⌊fish.position.x / 50⌋| ≤ 5)
    (hcheby : |⌊F.position.y / 50⌋ - ⌊fish.position.y / 50⌋| ≤ 5)
    (hnear : ∀ G ∈ env.foods, G.isEaten = false → G.id ≠ F.id →
      getCellIndexR (envDims env.canvas) G.position ∈
        getAdjacentIndices (envDims env.canvas)
          (getCellIndexR (envDims env.canvas) fish.position) 5 →
      fish.position.getDistanceTo F.position <
        fish.position.getDistanceTo G.position)
    (hdpos : 0 < fish.position.getDistanceTo F.position)
    (heat : ¬(fish.desiredFood = some F.id ∧
      fish.position.getDistanceTo F.position < 20)) :
    ∃ r foods1, KoiFish.update env fish now o = some (r, foods1) ∧
      r.targetPoint = F.position ∧ r.desiredFood = some F.id ∧
      r.leaderKoiFish = none := by
  set fish0 : KoiState := { fish with
    previousSpeed := fish.speed
    speed := fish.baseSpeed
    turnMultiplier := 1 } with hfish0
  have hpos1eq : (foodEatPhase env fish0).1.position = fish.position ∧
      (foodEatPhase env fish0).1.id = fish.id ∧
      F ∈ (foodEatPhase env fish0).2 ∧
      ((foodEatPhase env fish0).2.map Food4.id).Nodup ∧
      (∀ G ∈ (foodEatPhase env fish0).2, G.isEaten = false → G ∈ env.foods) :=
    foodEatPhase_spec env fish0 F hids hFmem hFe heat
  obtain ⟨hpos1, hid1, hF1, hnodup1, hsrc1⟩ := hpos1eq
  have hadjF : getCellIndexR (envDims env.canvas) F.position ∈
      getAdjacentIndices (envDims env.canvas)
        (getCellIndexR (envDims env.canvas) fish.position) 5 :=
    food_cell_in_adjacency env.canvas fish.position F.position hx0 hx1 hy0 hy1
      hfx0 hfx1 hfy0 hfy1 hchebx hcheby
  have hScan := foodScanPhase_spec env (foodEatPhase env fish0).1
    (foodEatPhase env fish0).2 F hF1 hFe (by rw [hid1]; exact hFid)
    (by rw [hpos1]; exact hadjF)
    (by
      intro G hG hGe hGF hGadj
      have hGsrc := hsrc1 G hG hGe
      have hGid : G.id ≠ F.id := fun hcc =>
        hGF (nodup_id_unique env.foods hids G F hGsrc hFmem hcc)
      rw [hpos1]
      rw [hpos1] at hGadj
      exact hnear G hGsrc hGe hGid hGadj)
    (by rw [hpos1]; exact hdpos)
  obtain ⟨r0, hscan_eq, hrtp, hrdf, hrld⟩ := hScan
  have hfood : checkAndSetFoodBehavior env fish0 =
      some (r0, (foodEatPhase env fish0).2) := by
    unfold checkAndSetFoodBehavior
    exact hscan_eq
  have hnotoob : ¬(getDistanceToCanvasBorder env.canvas fish0.position <
      KoiFish.canvasExitDistance) := by
    have h0 := inCanvas_distBorder_nonneg env.canvas fish.position hx0
      (le_of_lt hx1) hy0 (le_of_lt hy1)
    unfold KoiFish.canvasExitDistance
    exact not_lt.mpr (by exact le_trans (by norm_num) h0)
  simp only [KoiFish.update]
  rw [← hfish0]
  rw [if_neg hnotoob, hfood]
  dsimp only
  rw [if_neg (by rw [hrdf]; exact Option.some_ne_none F.id)]
  dsimp only
  rw [if_neg (fun hc => absurd (hrdf ▸ hc.1) (Option.some_ne_none F.id))]
  dsimp only
  refine ⟨_, _, rfl, ?_, ?_, ?_⟩
  · exact hrtp
  · exact hrdf
  · exact hrld

theorem flatMap_const_nil {α β : Type} (l : List α) :
    l.flatMap (fun _ => ([] : List β)) = [] := by
  induction l with
  | nil => rfl
  | cons a rest ih => simp [List.flatMap_cons, ih]

theorem scan_all_eaten (pos : Pt) :
    ∀ l : List Food4, (∀ G ∈ l, G.isEaten = true) →
      List.foldl (scanStep pos) none l = none := by
  intro l
  induction l with
  | nil => intro _; rfl
  | cons G rest ih =>
    intro h
    rw [List.foldl_cons]
    have hstep : scanStep pos none G = none := by
      unfold scanStep
      rw [if_pos (h G (List.mem_cons_self G rest))]
    rw [hstep]
    exact ih (fun G2 hG2 => h G2 (List.mem_cons_of_mem G hG2))

theorem getNearbyKoi_nil (cv : Canvas) (fish : KoiState) (range : ℤ) :
    getNearbyKoi cv [] fish range = [] := by
  unfold getNearbyKoi
  simp only [List.filter_nil]
  exact flatMap_const_nil _

/-- The concrete environment of the C4 counterexample: a 400x400 canvas with
a single food at (110, 100) and no other fish. -/
noncomputable def cexEnv : Env :=
  ⟨⟨400, 400⟩, [], [⟨1, ⟨110, 100⟩, false⟩], 50⟩

/-- The concrete fish of the C4 counterexample: at (100, 100), already
pursuing the food (its targetPoint aliases the food's position), 10 units
away from it. -/
noncomputable def cexFish : KoiState :=
  ⟨0, 1, ⟨100, 100⟩, ⟨0, 1⟩, 20, 20, 20, 1, ⟨110, 100⟩, 0, some 1, none, 0,
    0, 0, ⟨0, 0⟩, ⟨0, 0⟩, 1, 1⟩

/-- The concrete oracle of the C4 counterexample: the random-target loop
draws (350, 350). -/
noncomputable def cexOracle : KoiOracle :=
  ⟨0, 0, ⟨0, 0⟩, 0, 0, [⟨350, 350⟩]⟩

/-- The witness fish for the C4 amended theorem: at (100, 100) in the same
environment, not yet pursuing any food. -/
noncomputable def wFish4 : KoiState :=
  ⟨0, 1, ⟨100, 100⟩, ⟨0, 1⟩, 20, 20, 20, 1, ⟨0, 0⟩, 0, none, none, 0,
    0, 0, ⟨0, 0⟩, ⟨0, 0⟩, 1, 1⟩

/-- Counterexample to C4 as stated: the fish satisfies every stated
hypothesis — in bounds, an uneaten registered food at (110, 100) in range
and nearest — but that food is the fish's currently pursued food within
eating distance (10 < 20 units), so the update eats it and re-picks a
random target (350, 350) instead of setting targetPoint to the food's
position. -/
theorem koifish_food_target_claim_refuted :
    (KoiFish.update cexEnv cexFish 0 cexOracle).map
        (fun r => r.1.targetPoint) = some ⟨350, 350⟩ ∧
    ¬((⟨350, 350⟩ : Pt) = (⟨110, 100⟩ : Pt)) ∧
    (KoiFish.update cexEnv cexFish 0 cexOracle).map (fun r => r.2) =
      some [⟨1, ⟨110, 100⟩, true⟩] := by
  have hd10 : (⟨100, 100⟩ : Pt).getDistanceTo ⟨110, 100⟩ = 10 := by
    rw [Pt.getDistanceTo_eq_sqrt]
    unfold Pt.distSq
    dsimp only
    rw [show ((110 : ℝ) - 100) * ((110 : ℝ) - 100) +
      ((100 : ℝ) - 100) * ((100 : ℝ) - 100) = 10 ^ 2 by norm_num]
    exact Real.sqrt_sq (by norm_num)
  have hd350 : ¬(⟨100, 100⟩ : Pt).getDistanceTo ⟨350, 350⟩ < 300 := by
    rw [not_lt, Pt.getDistanceTo_eq_sqrt]
    rw [show (⟨100, 100⟩ : Pt).distSq ⟨350, 350⟩ = 125000 by
      unfold Pt.distSq
      dsimp only
      norm_num]
    rw [show (300 : ℝ) = Real.sqrt (300 ^ 2) from
      (Real.sqrt_sq (by norm_num)).symm]
    apply Real.sqrt_le_sqrt
    norm_num
  set fishZ : KoiState := { cexFish with
    previousSpeed := cexFish.speed
    speed := cexFish.baseSpeed
    turnMultiplier := 1 } with hfishZ
  set fishE : KoiState := { fishZ with desiredFood := none } with hfishE
  set fishE2 : KoiState := { fishE with
    tailSpeedFactor := 1
    finSpeedFactor := 1 } with hfishE2
  have hnotoob : ¬(getDistanceToCanvasBorder cexEnv.canvas fishZ.position <
      KoiFish.canvasExitDistance) := by
    have h0 := inCanvas_distBorder_nonneg cexEnv.canvas fishZ.position
      (by norm_num [cexEnv, hfishZ, cexFish])
      (by norm_num [cexEnv, hfishZ, cexFish])
      (by norm_num [cexEnv, hfishZ, cexFish])
      (by norm_num [cexEnv, hfishZ, cexFish])
    unfold KoiFish.canvasExitDistance
    exact not_lt.mpr (le_trans (by norm_num) h0)
  have h1 : foodEatPhase cexEnv fishZ = (fishE, [⟨1, ⟨110, 100⟩, true⟩]) := by
    unfold foodEatPhase
    rw [show fishZ.desiredFood = some 1 from rfl]
    dsimp only
    rw [show cexEnv.foods.find? (fun fd : Food4 => decide (fd.id = 1)) =
      some ⟨1, ⟨110, 100⟩, false⟩ from rfl]
    dsimp only
    rw [show cexFish.position = (⟨100, 100⟩ : Pt) from rfl]
    rw [if_pos (by rw [hd10]; norm_num)]
    rfl
  have h2 : closestFoodScan fishE.position
      (getNearbyFoods cexEnv.canvas [⟨1, ⟨110, 100⟩, true⟩] fishE 5) = none := by
    apply scan_all_eaten
    intro G hG
    have hGm := ((mem_getNearbyFoods cexEnv.canvas _ fishE 5 G).mp hG).1
    rw [List.mem_singleton] at hGm
    rw [hGm]
  have h3 : foodScanPhase cexEnv fishE [⟨1, ⟨110, 100⟩, true⟩] =
      some (fishE2, [⟨1, ⟨110, 100⟩, true⟩]) := by
    simp only [foodScanPhase, h2]
  have h4 : checkAndSetFoodBehavior cexEnv fishZ =
      some (fishE2, [⟨1, ⟨110, 100⟩, true⟩]) := by
    unfold checkAndSetFoodBehavior
    rw [h1]
    exact h3
  have h5 : checkAndSetFollowBehavior { cexEnv with
      foods := [⟨1, ⟨110, 100⟩, true⟩] } fishE2 0 cexOracle = some fishE2 := by
    unfold checkAndSetFollowBehavior
    rw [if_neg (fun hc => hc.1 rfl)]
    rw [show fishE2.leaderKoiFish = (none : Option ℕ) from rfl]
    dsimp only
    rw [show ({ cexEnv with
      foods := [⟨1, ⟨110, 100⟩, true⟩] } : Env).fishOthers = [] from rfl]
    rw [getNearbyKoi_nil]
    rfl
  have hmagv : (fishE2.position.getVectorTo fishE2.targetPoint).getMagnitude = 10 := by
    rw [show fishE2.position.getVectorTo fishE2.targetPoint =
      (⟨100, 100⟩ : Pt).getVectorTo ⟨110, 100⟩ from rfl]
    rw [← Pt.getDistanceTo_eq_mag]
    exact hd10
  have h6 : ∃ tm2, standardBehavior cexEnv.canvas fishE2 cexOracle =
      some { fishE2 with targetPoint := ⟨350, 350⟩, turnMultiplier := tm2 } := by
    simp only [standardBehavior]
    rw [if_pos (by rw [hmagv]; norm_num)]
    rw [show setNewRandomTargetPoint fishE2.position cexOracle.retargets =
        some ⟨350, 350⟩ by
      unfold setNewRandomTargetPoint
      rw [show cexOracle.retargets = [⟨350, 350⟩] from rfl]
      rw [List.find?_cons_of_pos]
      rw [decide_eq_true_eq]
      rw [show fishE2.position = (⟨100, 100⟩ : Pt) from rfl]
      exact hd350]
    dsimp only
    rw [Vec.normalized_of_mag_ne_zero _ (by rw [hmagv]; norm_num)]
    dsimp only
    exact ⟨_, rfl⟩
  obtain ⟨tm2, h6⟩ := h6
  simp only [KoiFish.update]
  rw [← hfishZ, if_neg hnotoob, h4]
  dsimp only
  rw [if_pos (show fishE2.desiredFood = none from rfl), h5]
  dsimp only
  rw [if_pos ⟨show fishE2.desiredFood = none from rfl,
    show fishE2.leaderKoiFish = none from rfl⟩, h6]
  dsimp only
  refine ⟨rfl, ?_, rfl⟩
  intro hc
  have hx := congrArg Pt.x hc
  dsimp only at hx
  norm_num at hx

/-- Witness for the C4 amended theorem: a fish at (100, 100) on a 400x400
canvas with a single uneaten food 10 units away, pursuing nothing yet;
one update retargets it onto the food, records the food's id and has no
leader. -/
theorem koifish_update_targets_nearest_food_witness :
    ∃ r foods1, KoiFish.update cexEnv wFish4 0 cexOracle = some (r, foods1) ∧
      r.targetPoint = ⟨110, 100⟩ ∧ r.desiredFood = some 1 ∧
      r.leaderKoiFish = none :=
  koifish_update_targets_nearest_food cexEnv wFish4 ⟨1, ⟨110, 100⟩, false⟩ 0
    cexOracle
    (by simp [cexEnv])
    (by simp [cexEnv])
    rfl
    (by norm_num [wFish4])
    (by norm_num [wFish4])
    (by norm_num [wFish4, cexEnv])
    (by norm_num [wFish4])
    (by norm_num [wFish4, cexEnv])
    (by norm_num)
    (by norm_num [cexEnv])
    (by norm_num)
    (by norm_num [cexEnv])
    (by norm_num [wFish4])
    (by norm_num [wFish4])
    (by
      intro G hG hGe hGid hGadj
      have hGeq : G = ⟨1, ⟨110, 100⟩, false⟩ := by
        simpa [cexEnv] using hG
      rw [hGeq] at hGid
      exact absurd rfl hGid)
    (by
      rw [Pt.getDistanceTo_eq_sqrt]
      apply Real.sqrt_pos.mpr
      unfold Pt.distSq
      norm_num [wFish4])
    (by
      intro hc
      exact absurd hc.1 (by simp [wFish4]))
